import Mathlib

/-!
# ai-cv-evaluator: the asynchronous evaluation pipeline

A shallow embedding of the parts of the repository the specification talks
about:

* `infrastructure/gemini.go`: the scoring client (`Evaluate`,
  `callGeminiWithModel`, `extractTextFromResponse`, `cleanJSONResponse`),
  `ExtractTextFromFile` and the PDF text extraction with its remote fallback;
* `cmd/main.go`: the worker handler registered with `ConsumeJobs`;
* `interfaces/http_handler.go`: the submission handler `HTTPHandler.Evaluate`.

Go values of type `interface{}` produced by `encoding/json` are modelled by
the tree `JVal`; a Go `error` by `GoError`; a Go call that may return a value,
return an error, or panic by `Outcome`.  Calls to the outside world (HTTP,
the database, the PDF library, `encoding/json`) are parameters of the
embedded functions, and every embedded function also reports the calls it
made, so that "no call is made" is a statement about its result.
-/

namespace CvEvaluator

/-! ## Go errors and call outcomes -/

/-- A Go `error`: either a plain message, or a message built by `fmt.Errorf`
around a wrapped error (`%w`); the wrapped error may be `nil`. -/
inductive GoError where
  | new (msg : String)
  | wrap (before : String) (inner : Option GoError) (after : String)

/-- What `errors.Unwrap` returns. -/
def GoError.unwrap : GoError → Option GoError
  | .new _ => none
  | .wrap _ inner _ => inner

/-- Result of a Go call of type `(α, error)`: a value with a nil error, an
error, or a run-time panic (a failed unchecked type assertion). -/
inductive Outcome (α : Type) where
  | ok (a : α)
  | err (e : GoError)
  | panic (msg : String)

/-- The call returned to its caller, with a value or with an error. -/
def Outcome.returned {α : Type} : Outcome α → Bool
  | .ok _ => true
  | .err _ => true
  | .panic _ => false

/-! ## Loosely typed JSON trees -/

/-- The values `encoding/json` stores in an `interface{}`: `nil`, `bool`,
`float64`, `string`, `[]interface{}` and `map[string]interface{}`.  A finite
`float64` is a rational number and the code never computes with one, so
numbers are kept as rationals. -/
inductive JVal where
  | null
  | bool (b : Bool)
  | num (q : Rat)
  | str (s : String)
  | arr (items : List JVal)
  | obj (fields : List (String × JVal))

/-- A Go `map[string]interface{}` as an association list (first binding of a
key counts); the nil map is the empty list. -/
abbrev JObj := List (String × JVal)

/-- Go map indexing `m[k]`: the value, or the nil interface when absent. -/
def JObj.index (m : JObj) (k : String) : JVal :=
  match m.find? (fun kv => kv.1 == k) with
  | some kv => kv.2
  | none => JVal.null

/-- The checked type assertion `v.(map[string]interface{})`. -/
def JVal.asObject : JVal → Option JObj
  | .obj fields => some fields
  | _ => none

/-- The checked type assertion `v.([]interface{})`. -/
def JVal.asArray : JVal → Option (List JVal)
  | .arr items => some items
  | _ => none

/-- The checked type assertion `v.(string)`. -/
def JVal.asString : JVal → Option String
  | .str s => some s
  | _ => none

/-! ## `GeminiClient.Evaluate` -/

/-- The prompt of `Evaluate`: `fmt.Sprintf` of the fixed template with the
four `%s` verbs replaced in order. -/
def buildPrompt (description rubric cv project : String) : String :=
  "You are an evaluator. Use the following job description and rubric to evaluate:\n\nJob Description:\n"
    ++ description ++ "\n\nRubric:\n" ++ rubric ++ "\n\nCV Input:\n" ++ cv
    ++ "\n\nProject Input:\n" ++ project
    ++ "\n\nDefine at least these scoring parameters:\n CV Evaluation (Match Rate)\n Technical Skills Match (backend, databases, APIs, cloud, AI/LLM exposure).\n Experience Level (years, project complexity).\n Relevant Achievements (impact, scale).\n Cultural Fit (communication, learning attitude).\n Project Deliverable Evaluation\n \n Correctness (meets requirements: prompt design, chaining, RAG, handling errors).\n Code Quality (clean, modular, testable).\n Resilience (handles failures, retries).\n Documentation (clear README, explanation of trade-offs).\n Creativity / Bonus (optional improvements like authentication, deployment, dashboards).\n Each parameter can be scored 1–5, then aggregated to final score\n\nReturn strict JSON with structure:\n\x7b\n  \"cv\": \x7b\n    \"match_rate\": float,\n    \"feedback\": string\n  \x7d,\n  \"project\": \x7b\n    \"score\": float,\n    \"feedback\": string\n  \x7d,\n  \"overall_summary\": string\n\x7d\n\nIMPORTANT: cv match_rate is between 0-1 and project score is between 1-10 and Return ONLY the raw JSON without any markdown formatting, code blocks, or additional text."

/-- The `availableModels` of `Evaluate`, in the order they are tried. -/
def evaluateModels : List String :=
  ["gemini-2.0-flash-001", "gemini-2.0-flash", "gemini-2.5-flash",
   "gemini-2.5-flash-preview-09-2025", "gemini-flash-latest"]

/-- What a run of `Evaluate` yields: the returned pair and the models for
which `callGeminiWithModel` was called, in call order. -/
structure EvalRun where
  result : Outcome JObj
  calls : List String

/-- The `for _, model := range availableModels` loop of `Evaluate`, started
with the current `lastError`; `call prompt model` is what
`callGeminiWithModel(ctx, prompt, model)` does. -/
def evaluateLoop (call : String → String → Outcome JObj) (prompt : String) :
    List String → Option GoError → EvalRun
  | [], lastError => ⟨.err (.wrap "all models failed: " lastError ""), []⟩
  | model :: rest, _ =>
    match call prompt model with
    | .ok response => ⟨.ok response, [model]⟩
    | .err e =>
      let r := evaluateLoop call prompt rest (some e)
      ⟨r.result, model :: r.calls⟩
    | .panic msg => ⟨.panic msg, [model]⟩

/-- The method `GeminiClient.Evaluate`. -/
def Evaluate (call : String → String → Outcome JObj)
    (description rubric cv project : String) : EvalRun :=
  evaluateLoop call (buildPrompt description rubric cv project) evaluateModels none

/-! ## Go string functions used by the client

Texts that come out of `encoding/json` are valid UTF-8, so they are modelled
by `String` (a list of code points).  Positions are counted in code points
instead of bytes; the code only compares two positions and slices between
them, which gives the same substring. -/

/-- The predicate `unicode.IsSpace`: the code points with the Unicode
White_Space property. -/
def isSpace (c : Char) : Bool :=
  let n := c.toNat
  (0x09 ≤ n && n ≤ 0x0D) || n == 0x20 || n == 0x85 || n == 0xA0 || n == 0x1680
    || (0x2000 ≤ n && n ≤ 0x200A) || n == 0x2028 || n == 0x2029 || n == 0x202F
    || n == 0x205F || n == 0x3000

/-- The function `strings.TrimSpace`. -/
def TrimSpace (s : String) : String :=
  ⟨((s.data.dropWhile isSpace).reverse.dropWhile isSpace).reverse⟩

/-- The function `strings.HasPrefix`. -/
def HasPrefix (s pre : String) : Bool := pre.data.isPrefixOf s.data

/-- The function `strings.TrimPrefix`. -/
def TrimPrefix (s pre : String) : String :=
  if HasPrefix s pre then ⟨s.data.drop pre.data.length⟩ else s

/-- The function `strings.HasSuffix`. -/
def HasSuffix (s suf : String) : Bool := suf.data.reverse.isPrefixOf s.data.reverse

/-- The function `strings.TrimSuffix`. -/
def TrimSuffix (s suf : String) : String :=
  if HasSuffix s suf then ⟨s.data.take (s.data.length - suf.data.length)⟩ else s

/-- The function `strings.Index` for a one-character needle: the position of
its first occurrence, or `-1`. -/
def Index (s : String) (c : Char) : Int :=
  let i := s.data.indexOf c
  if i < s.data.length then (i : Int) else -1

/-- The function `strings.LastIndex` for a one-character needle: the position
of its last occurrence, or `-1`. -/
def LastIndex (s : String) (c : Char) : Int :=
  let i := s.data.reverse.indexOf c
  if i < s.data.length then ((s.data.length - 1 - i : Nat) : Int) else -1

/-- The slice expression `s[lo:hi]` for `0 ≤ lo ≤ hi ≤ len(s)`. -/
def slice (s : String) (lo hi : Int) : String :=
  ⟨(s.data.drop lo.toNat).take (hi.toNat - lo.toNat)⟩

/-- The function `cleanJSONResponse`. -/
def cleanJSONResponse (content : String) : String :=
  let content := TrimSpace content
  let content :=
    if HasPrefix content "```json" then TrimPrefix content "```json"
    else if HasPrefix content "```" then TrimPrefix content "```"
    else content
  let content := if HasSuffix content "```" then TrimSuffix content "```" else content
  let content := TrimSpace content
  let start := Index content '{'
  let stop := LastIndex content '}'
  let content :=
    if start ≠ -1 ∧ stop ≠ -1 ∧ stop > start then slice content start (stop + 1)
    else content
  TrimSpace content

/-! ## Reading the remote response -/

/-- The function `extractTextFromResponse`.  The two type assertions on
`candidates[0]` and `parts[0]` are written without the `, ok` form in the
source, so they panic on a value that is not a JSON object. -/
def extractTextFromResponse (apiResponse : JObj) : Outcome String :=
  match (apiResponse.index "candidates").asArray with
  | none => .err (.new "no candidates in response")
  | some [] => .err (.new "no candidates in response")
  | some (candidate0 :: _) =>
    match candidate0.asObject with
    | none => .panic "interface conversion: interface is not map[string]interface"
    | some firstCandidate =>
      match (firstCandidate.index "content").asObject with
      | none => .err (.new "invalid content format")
      | some content =>
        match (content.index "parts").asArray with
        | none => .err (.new "no parts in content")
        | some [] => .err (.new "no parts in content")
        | some (part0 :: _) =>
          match part0.asObject with
          | none => .panic "interface conversion: interface is not map[string]interface"
          | some firstPart =>
            match (firstPart.index "text").asString with
            | none => .err (.new "no text in part")
            | some text => .ok text

/-- One HTTP exchange with the remote service, as far as the code looks at
it: building the request fails, sending it fails, reading the body fails, or
a status code and a body arrive. -/
inductive Exchange where
  | requestError (e : GoError)
  | sendError (e : GoError)
  | readError (e : GoError)
  | received (status : Nat) (body : String)

/-- The outside world of the client: `json.Marshal` of the request built
from a prompt (scoring) or from a document (extraction), the HTTP exchange
for a model and a request body, and `json.Unmarshal` into an `interface{}`. -/
structure Remote where
  marshalScoring : String → Except GoError String
  marshalPdf : List UInt8 → Except GoError String
  exchange : String → String → Exchange
  decode : String → Except GoError JVal

/-- The call `json.Unmarshal(data, &m)` for `m` of type
`map[string]interface{}`: a JSON object fills the map, JSON `null` leaves the
nil map, any other JSON value is an error. -/
def unmarshalMap (decode : String → Except GoError JVal) (data : String) :
    Except GoError JObj :=
  match decode data with
  | .error e => .error e
  | .ok (.obj fields) => .ok fields
  | .ok .null => .ok []
  | .ok _ => .error (.new "json: cannot unmarshal into Go value of type map[string]interface")

/-- The method `GeminiClient.callGeminiWithModel`. -/
def callGeminiWithModel (env : Remote) (prompt model : String) : Outcome JObj :=
  match env.marshalScoring prompt with
  | .error e => .err (.wrap "failed to marshal request: " (some e) "")
  | .ok jsonData =>
    match env.exchange model jsonData with
    | .requestError e => .err (.wrap "failed to create request: " (some e) "")
    | .sendError e => .err (.wrap "failed to send request: " (some e) "")
    | .readError e => .err (.wrap "failed to read response: " (some e) "")
    | .received status body =>
      if status ≠ 200 then
        .err (.new ("API request failed with status " ++ toString status ++ ": " ++ body))
      else
        match unmarshalMap env.decode body with
        | .error e => .err (.wrap "failed to parse API response: " (some e) "")
        | .ok apiResponse =>
          match extractTextFromResponse apiResponse with
          | .err e => .err e
          | .panic msg => .panic msg
          | .ok text =>
            let cleanedContent := cleanJSONResponse text
            match unmarshalMap env.decode cleanedContent with
            | .error e =>
              .err (.wrap "failed to parse JSON: " (some e) ("\nResponse: " ++ cleanedContent))
            | .ok result => .ok result

/-- The required shape of a scoring result: a nested `cv` object and a nested
`project` object (what the worker checks after `Evaluate` returns). -/
def hasRequiredShape (result : JObj) : Bool :=
  (result.index "cv").asObject.isSome && (result.index "project").asObject.isSome


/-! ## PDF text extraction -/

/-- The UTF-8 bytes of a text: a Go `string` holding that text. -/
def utf8 (s : String) : List UInt8 := s.data.flatMap String.utf8EncodeChar

/-- What the PDF library does for one page, as far as `extractTextFromPDF`
looks at it: `GetPage` fails, `extractor.New` fails, `ExtractText` fails, or
a page text comes back. -/
inductive PageOutcome where
  | getPageError (e : GoError)
  | extractorError (e : GoError)
  | extractTextError (e : GoError)
  | text (pageText : String)

/-- What the PDF library does for a document: `NewPdfReader` fails,
`GetNumPages` fails, or the document has the listed pages. -/
inductive PdfDocument where
  | readError (e : GoError)
  | pageCountError (e : GoError)
  | pages (ps : List PageOutcome)

/-- The page loop of `extractTextFromPDF` from page number `i` on: the text
written to the builder and the flag `extractedAnyText`. -/
def pageLoop : List PageOutcome → Nat → String × Bool
  | [], _ => ("", false)
  | p :: ps, i =>
    let tail := pageLoop ps (i + 1)
    match p with
    | .text pageText =>
      if pageText ≠ "" then
        ("--- Page " ++ toString i ++ " ---\n" ++ pageText ++ "\n\n" ++ tail.1, true)
      else tail
    | _ => tail

/-- The method `GeminiClient.extractTextFromPDF`, given what the PDF library
makes of the bytes. -/
def extractTextFromPDF (readPdf : List UInt8 → PdfDocument) (data : List UInt8) :
    Outcome String :=
  match readPdf data with
  | .readError e => .err (.wrap "failed to read PDF: " (some e) "")
  | .pageCountError e => .err (.wrap "failed to get page count: " (some e) "")
  | .pages ps =>
    if ps.length = 0 then .err (.new "PDF has no pages")
    else
      let built := pageLoop ps 1
      let result := TrimSpace built.1
      if !built.2 then .err (.new "no text could be extracted from any page of the PDF")
      else .ok result

/-- The `availableModels` of `extractTextFromPDFWithGemini`, in order. -/
def pdfModels : List String :=
  ["gemini-2.0-flash-001", "gemini-2.0-flash", "gemini-2.5-flash", "gemini-flash-latest"]

/-- One remote call of the model loop of `extractTextFromPDFWithGemini`, from
building the request to `extractTextFromResponse`: the text of the response,
or the error the loop stores in `lastError`. -/
def pdfCall (env : Remote) (jsonData model : String) : Outcome String :=
  match env.exchange model jsonData with
  | .requestError e => .err e
  | .sendError e => .err e
  | .readError e => .err e
  | .received status body =>
    if status ≠ 200 then
      .err (.new ("API request failed with status " ++ toString status ++ ": " ++ body))
    else
      match unmarshalMap env.decode body with
      | .error e => .err e
      | .ok apiResponse => extractTextFromResponse apiResponse

/-- What a run of `extractTextFromPDFWithGemini` yields: the returned pair
and the models tried, in order. -/
structure PdfRun where
  result : Outcome String
  calls : List String

/-- The model loop of `extractTextFromPDFWithGemini`: a call that fails sets
`lastError`, a call that yields the empty text goes on without setting it, a
call that yields a non-empty text ends the loop with that text trimmed. -/
def pdfLoop (env : Remote) (jsonData : String) : List String → Option GoError → PdfRun
  | [], lastError =>
    ⟨.err (.wrap "all Gemini models failed for PDF extraction: " lastError ""), []⟩
  | model :: rest, lastError =>
    match pdfCall env jsonData model with
    | .err e =>
      let r := pdfLoop env jsonData rest (some e)
      ⟨r.result, model :: r.calls⟩
    | .panic msg => ⟨.panic msg, [model]⟩
    | .ok text =>
      if text ≠ "" then ⟨.ok (TrimSpace text), [model]⟩
      else
        let r := pdfLoop env jsonData rest lastError
        ⟨r.result, model :: r.calls⟩

/-- The method `GeminiClient.extractTextFromPDFWithGemini`. -/
def extractTextFromPDFWithGemini (env : Remote) (data : List UInt8) : PdfRun :=
  match env.marshalPdf data with
  | .error e => ⟨.err (.wrap "failed to marshal request: " (some e) ""), []⟩
  | .ok jsonData => pdfLoop env jsonData pdfModels none

/-- What a run of `extractTextFromPDFWithFallback` yields: the returned pair
(the text as the bytes of the Go string) and the models the remote fallback
tried. -/
structure FallbackRun where
  result : Outcome (List UInt8)
  calls : List String

/-- The method `GeminiClient.extractTextFromPDFWithFallback`; its two callees
`extractTextFromPDF` and `extractTextFromPDFWithGemini` are parameters.  The
conversion `string(data)` keeps the bytes. -/
def extractTextFromPDFWithFallback (native : List UInt8 → Outcome String)
    (remote : List UInt8 → PdfRun) (data : List UInt8) : FallbackRun :=
  let rawData : FallbackRun :=
    if data.length > 5000 then ⟨.ok (data.take 5000), []⟩ else ⟨.ok data, []⟩
  let method2 : FallbackRun :=
    let run := remote data
    match run.result with
    | .panic msg => ⟨.panic msg, run.calls⟩
    | .ok geminiText =>
      if geminiText ≠ "" then ⟨.ok (utf8 geminiText), run.calls⟩
      else ⟨rawData.result, run.calls⟩
    | .err _ => ⟨rawData.result, run.calls⟩
  match native data with
  | .panic msg => ⟨.panic msg, []⟩
  | .ok text => if text ≠ "" then ⟨.ok (utf8 text), []⟩ else method2
  | .err _ => method2

/-- The PDF branch of `ExtractTextFromFile`: the fallback chain over the PDF
library and the remote service. -/
def extractPdf (readPdf : List UInt8 → PdfDocument) (env : Remote) (data : List UInt8) :
    FallbackRun :=
  extractTextFromPDFWithFallback (extractTextFromPDF readPdf)
    (extractTextFromPDFWithGemini env) data


/-! ## Domain records and the evaluation table -/

/-- The `status` column: `enum('queued','processing','completed','failed')`. -/
inductive Status where
  | queued
  | processing
  | completed
  | failed
  deriving DecidableEq, Repr

/-- The record `domain.Job` (without its creation time). -/
structure Job where
  ID : Nat
  Title : String
  Description : String
  Rubric : String

/-- The record `domain.Upload` (without its creation time). -/
structure Upload where
  ID : Nat
  CandidateName : String
  CandidateEmail : String
  CVText : String
  ProjectText : String

/-- The record `domain.Evaluation`, without its two time stamps, which the
ORM and the clock maintain: two `float64` columns, three text columns and
the nullable JSON column. -/
structure Evaluation where
  ID : Nat
  UploadID : Nat
  JobID : Nat
  Status : Status
  CVMatchRate : Rat
  CVFeedback : String
  ProjectScore : Rat
  ProjectFeedback : String
  OverallSummary : String
  ResultJSON : Option String

/-- The message `infrastructure.EvaluationJob` carried on the queue. -/
structure EvaluationJob where
  EvaluationID : Nat
  UploadID : Nat
  JobID : Nat
  CVText : String
  ProjectText : String

/-- The rows of the evaluation table. -/
abbrev Store := List Evaluation

/-- The writes the two handlers issue on the evaluation table:
`Create(&eval)`, `Where("id = ?", id).Update("status", s)` and
`Where("id = ?", id).Updates(map)` with the seven value columns of the
worker. -/
inductive DBWrite where
  | create (row : Evaluation)
  | updateStatus (id : Nat) (status : Status)
  | updates (id : Nat) (status : Status)
      (cvMatchRate cvFeedback projectScore projectFeedback overallSummary : JVal)
      (resultJSON : String)

/-- What the database (the ORM, the driver and the server together) makes of
a value handed to `Updates` for a column of the evaluation table: the value it
stores, or `none` when it refuses the value.  The worker hands it `interface{}`
values straight from the scoring result, so a value need not have the type of
its column; which values are refused is decided outside the repository
(`database/sql`, for one, has no conversion for a map), so it is a parameter. -/
structure Database where
  floatColumn : JVal → Option Rat
  textColumn : JVal → Option String
  jsonColumn : String → Option String

/-- The values stored for the six value columns of the worker's update. -/
structure StoredResult where
  cvMatchRate : Rat
  cvFeedback : String
  projectScore : Rat
  projectFeedback : String
  overallSummary : String
  resultJSON : String

/-- What the database stores for the six values of the worker's update, or
`none` when it refuses one of them: the statement is then not executed. -/
def Database.convert (db : Database)
    (cvMatchRate cvFeedback projectScore projectFeedback overallSummary : JVal)
    (resultJSON : String) : Option StoredResult :=
  match db.floatColumn cvMatchRate, db.textColumn cvFeedback, db.floatColumn projectScore,
    db.textColumn projectFeedback, db.textColumn overallSummary, db.jsonColumn resultJSON with
  | some a, some b, some c, some d, some e, some j => some ⟨a, b, c, d, e, j⟩
  | _, _, _, _, _, _ => none

/-- The database stores a number it accepts for a float column, and a string
it accepts for a text column, as it is. -/
def Database.keepsValues (db : Database) : Prop :=
  (∀ q t, db.floatColumn (.num q) = some t → t = q)
    ∧ (∀ s t, db.textColumn (.str s) = some t → t = s)

/-- Effect of one write on a reachable database: an insert appends the row; a
status update changes the status of every row with the given id and no other
row; the update of the value columns changes those rows when the database
accepts the six values and changes nothing when it refuses one (the handler
ignores the error of the write). -/
def applyWrite (db : Database) (st : Store) : DBWrite → Store
  | .create row => st ++ [row]
  | .updateStatus id status =>
    st.map (fun r => if r.ID = id then { r with Status := status } else r)
  | .updates id status cvMatchRate cvFeedback projectScore projectFeedback overallSummary
      resultJSON =>
    match db.convert cvMatchRate cvFeedback projectScore projectFeedback overallSummary
      resultJSON with
    | none => st
    | some v =>
      st.map (fun r =>
        if r.ID = id then
          { r with
            Status := status
            CVMatchRate := v.cvMatchRate
            CVFeedback := v.cvFeedback
            ProjectScore := v.projectScore
            ProjectFeedback := v.projectFeedback
            OverallSummary := v.overallSummary
            ResultJSON := some v.resultJSON }
        else r)

/-- Effect of a sequence of writes, applied in order. -/
def applyWrites (db : Database) (st : Store) (ws : List DBWrite) : Store :=
  ws.foldl (applyWrite db) st

/-- The row with the given id (`First(&eval, id)`), if there is one. -/
def getEval (st : Store) (id : Nat) : Option Evaluation := st.find? (fun r => r.ID == id)

/-- The status of the row with the given id, if there is one. -/
def statusOf (st : Store) (id : Nat) : Option Status := (getEval st id).map (·.Status)

/-! ## The worker handler (`cmd/main.go`) -/

/-- The collaborators of the worker handler: the two database loads
`db.First(&jobMeta, id)` and `db.First(&upload, id)`, the scoring client
`gemini.Evaluate` and `json.Marshal` of the result (its error is dropped by
the code, so it is a total function to the string stored). -/
structure WorkerEnv where
  loadJob : Nat → Except GoError Job
  loadUpload : Nat → Except GoError Upload
  evaluate : String → String → String → String → Outcome JObj
  marshal : JObj → String

/-- What one run of the worker handler does: the writes on the evaluation
table in order, the calls to the scoring client (description, rubric, CV
text, project text), and whether the run was cut short by a panic of the
client. -/
structure WorkerRun where
  writes : List DBWrite
  calls : List (String × String × String × String)
  crashed : Bool

/-- The handler passed to `ConsumeJobs` in `main`. -/
def workerHandler (env : WorkerEnv) (job : EvaluationJob) : WorkerRun :=
  let processing := DBWrite.updateStatus job.EvaluationID .processing
  let failed := DBWrite.updateStatus job.EvaluationID .failed
  match env.loadJob job.JobID with
  | .error _ => ⟨[processing, failed], [], false⟩
  | .ok jobMeta =>
    match env.loadUpload job.UploadID with
    | .error _ => ⟨[processing, failed], [], false⟩
    | .ok upload =>
      let call := (jobMeta.Description, jobMeta.Rubric, upload.CVText, upload.ProjectText)
      match env.evaluate jobMeta.Description jobMeta.Rubric upload.CVText upload.ProjectText with
      | .panic _ => ⟨[processing], [call], true⟩
      | .err _ => ⟨[processing, failed], [call], false⟩
      | .ok result =>
        let resultStr := env.marshal result
        match (result.index "cv").asObject, (result.index "project").asObject with
        | some cv, some project =>
          ⟨[processing,
            .updates job.EvaluationID .completed (cv.index "match_rate") (cv.index "feedback")
              (project.index "score") (project.index "feedback")
              (result.index "overall_summary") resultStr],
           [call], false⟩
        | _, _ => ⟨[processing, failed], [call], false⟩

/-- The store after one run of the worker handler. -/
def runWorker (db : Database) (env : WorkerEnv) (job : EvaluationJob) (st : Store) : Store :=
  applyWrites db st (workerHandler env job).writes

/-! ## The submission handler (`interfaces/http_handler.go`) -/

/-- The text `err.Error()` of a Go error. -/
def GoError.Error : GoError → String
  | .new msg => msg
  | .wrap before (some inner) after => before ++ inner.Error ++ after
  | .wrap before none after => before ++ "%!w(<nil>)" ++ after

/-- The collaborators of `HTTPHandler.Evaluate`: binding the request body to
`(upload_id, job_id)`, the two database loads, the insert of the evaluation
row (which yields the id the database assigned) and `PublishJob`. -/
structure SubmitEnv where
  bind : Except GoError (Nat × Nat)
  loadUpload : Nat → Except GoError Upload
  loadJob : Nat → Except GoError Job
  create : Evaluation → Except GoError Nat
  publish : EvaluationJob → Option GoError

/-- What one run of `HTTPHandler.Evaluate` does: the writes on the evaluation
table, the descriptors handed to `PublishJob`, and the HTTP response (status
code and JSON body). -/
structure SubmitRun where
  writes : List DBWrite
  published : List EvaluationJob
  response : Nat × JObj

/-- The method `HTTPHandler.Evaluate`. -/
def submitHandler (env : SubmitEnv) : SubmitRun :=
  match env.bind with
  | .error e => ⟨[], [], (400, [("error", .str e.Error)])⟩
  | .ok (reqUploadID, reqJobID) =>
    match env.loadUpload reqUploadID with
    | .error _ => ⟨[], [], (404, [("error", .str "upload not found")])⟩
    | .ok upload =>
      match env.loadJob reqJobID with
      | .error _ => ⟨[], [], (404, [("error", .str "job not found")])⟩
      | .ok job =>
        let eval : Evaluation :=
          { ID := 0, UploadID := upload.ID, JobID := job.ID, Status := .queued,
            CVMatchRate := 0, CVFeedback := "", ProjectScore := 0,
            ProjectFeedback := "", OverallSummary := "", ResultJSON := none }
        match env.create eval with
        | .error _ => ⟨[], [], (500, [("error", .str "failed to create evaluation")])⟩
        | .ok evalID =>
          let created := DBWrite.create { eval with ID := evalID }
          let jobData : EvaluationJob :=
            { EvaluationID := evalID, UploadID := reqUploadID, JobID := reqJobID,
              CVText := "", ProjectText := "" }
          match env.publish jobData with
          | some _ =>
            ⟨[created, .updateStatus evalID .failed], [jobData],
              (500, [("error", .str "failed to queue job")])⟩
          | none =>
            ⟨[created], [jobData],
              (200, [("id", .num evalID), ("status", .str "queued")])⟩

/-! ## The handlers as a transition system on the evaluation table -/

/-- One run of a handler: a submission, or the delivery of a descriptor to
the worker. -/
inductive Step where
  | submit (env : SubmitEnv)
  | deliver (env : WorkerEnv) (job : EvaluationJob)

/-- The writes of one run. -/
def Step.writes : Step → List DBWrite
  | .submit env => (submitHandler env).writes
  | .deliver env job => (workerHandler env job).writes

/-- The statuses of the row `id` after each write of a sequence, in order. -/
def traceWrites (db : Database) (id : Nat) : Store → List DBWrite → List (Option Status)
  | _, [] => []
  | st, w :: ws =>
    statusOf (applyWrite db st w) id :: traceWrites db id (applyWrite db st w) ws

/-- The statuses of the row `id` after each write of a sequence of runs. -/
def traceSteps (db : Database) (id : Nat) : Store → List Step → List (Option Status)
  | _, [] => []
  | st, s :: rest =>
    traceWrites db id st s.writes ++ traceSteps db id (applyWrites db st s.writes) rest

/-- Position of a status on the line queued, processing, terminal. -/
def Status.rank : Status → Nat
  | .queued => 0
  | .processing => 1
  | .completed => 2
  | .failed => 2

/-- Whether a status is terminal. -/
def Status.terminal : Status → Bool
  | .completed => true
  | .failed => true
  | _ => false

/-- One observation of a row's status may follow another: a row that exists
keeps existing, a terminal status does not change, and the rank does not
decrease. -/
def forwardStep : Option Status → Option Status → Bool
  | none, _ => true
  | some _, none => false
  | some a, some b => (!a.terminal || decide (b = a)) && decide (a.rank ≤ b.rank)

/-- A status history that only moves forward, starting from `a`. -/
def forwardFrom : Option Status → List (Option Status) → Bool
  | _, [] => true
  | a, b :: rest => forwardStep a b && forwardFrom b rest


/-! ## Stubs used as concrete inputs -/

/-- A scoring-service stub: the first variant fails, every other variant
answers with an empty object. -/
def stubSecondWins (_prompt model : String) : Outcome JObj :=
  if model = "gemini-2.0-flash-001" then .err (.new "status 503") else .ok []

/-- A scoring-service stub in which every variant fails, each with an error
that names the variant. -/
def stubAllFail (_prompt model : String) : Outcome JObj :=
  .err (.new model)

/-- The body of a well-formed API response whose candidate text is the empty
JSON object. -/
def emptyObjectBody : String :=
  "\x7b\"candidates\":[\x7b\"content\":\x7b\"parts\":[\x7b\"text\":\"\x7b\x7d\"\x7d]\x7d\x7d]\x7d"

/-- A remote stub: every model answers status 200 with `emptyObjectBody`.  The
decoder is `encoding/json` restricted to the two texts it is asked about in
this run: the body, and the candidate text, an empty JSON object. -/
def stubEmptyObject : Remote where
  marshalScoring := fun _ => .ok "request"
  marshalPdf := fun _ => .ok "request"
  exchange := fun _ _ => .received 200 emptyObjectBody
  decode := fun s =>
    if s = emptyObjectBody then
      .ok (.obj [("candidates", .arr [.obj [("content",
        .obj [("parts", .arr [.obj [("text", .str "\x7b\x7d")]])])]])])
    else if s = "\x7b\x7d" then .ok (.obj [])
    else .error (.new "invalid character")


/-- The scoring result of the specification's example scenario. -/
def exampleResult : JObj :=
  [("cv", .obj [("match_rate", .num 0.82), ("feedback", .str "Strong backend exp")]),
   ("project", .obj [("score", .num 8.5), ("feedback", .str "Good error handling")]),
   ("overall_summary", .str "Solid candidate")]

/-- The collaborators of the example scenario: job 2 and upload 7 exist (no
other does), the scoring client returns `exampleResult`, and `json.Marshal`
yields the JSON text of that result. -/
def exampleEnv : WorkerEnv where
  loadJob := fun id =>
    if id = 2 then .ok ⟨2, "Test Job", "Backend evaluation system with AI", "\x7b\x7d"⟩
    else .error (.new "record not found")
  loadUpload := fun id =>
    if id = 7 then .ok ⟨7, "Jane Doe", "jane@example.com", "CV text", "Project text"⟩
    else .error (.new "record not found")
  evaluate := fun _ _ _ _ => .ok exampleResult
  marshal := fun _ =>
    "\x7b\"cv\":\x7b\"feedback\":\"Strong backend exp\",\"match_rate\":0.82\x7d,\"overall_summary\":\"Solid candidate\",\"project\":\x7b\"feedback\":\"Good error handling\",\"score\":8.5\x7d\x7d"

/-- The descriptor of the example scenario. -/
def exampleJob : EvaluationJob := ⟨42, 7, 2, "", ""⟩

/-- A descriptor that names an upload that does not exist. -/
def missingUploadJob : EvaluationJob := ⟨42, 999, 2, "", ""⟩

/-- The row of evaluation 42 as the submission handler created it. -/
def exampleRow : Evaluation :=
  { ID := 42, UploadID := 7, JobID := 2, Status := .queued, CVMatchRate := 0,
    CVFeedback := "", ProjectScore := 0, ProjectFeedback := "",
    OverallSummary := "", ResultJSON := none }

/-- A database stub for the examples.  It agrees with the real database on the
values the examples hand to it: a number for a float column and a string for
a text column are stored as they are, and an object is refused
(`database/sql` has no conversion for a map, so `Updates` returns an error). -/
def stubDb : Database where
  floatColumn := fun v =>
    match v with
    | JVal.num q => some q
    | _ => none
  textColumn := fun v =>
    match v with
    | JVal.str s => some s
    | _ => none
  jsonColumn := fun j => some j

/-- The evaluation table of the example scenario. -/
def exampleStore : Store := [exampleRow]

/-- Collaborators like `exampleEnv`, but the scoring client returns a result
whose `cv` entry is a string and which has no `project` entry. -/
def badShapeEnv : WorkerEnv :=
  { exampleEnv with evaluate := fun _ _ _ _ => .ok [("cv", .str "n/a")] }


/-- Collaborators of a submission for upload 7 and job 2 in which the
database assigns id 42 and `PublishJob` returns an error. -/
def submitPublishFails : SubmitEnv where
  bind := .ok (7, 2)
  loadUpload := fun _ => .ok ⟨7, "Jane Doe", "jane@example.com", "CV text", "Project text"⟩
  loadJob := fun _ => .ok ⟨2, "Test Job", "Backend evaluation system with AI", "\x7b\x7d"⟩
  create := fun _ => .ok 42
  publish := fun _ => some (.new "context deadline exceeded")

/-! ## Guarded sequences of runs -/

/-- What a run may assume of the table for the status to move forward only:
the worker is handed no descriptor of a row that is already completed or
failed, and a submission inserts its row under an id not yet in the table. -/
def stepGuard (st : Store) : Step → Prop
  | .deliver _ job => ∀ s, statusOf st job.EvaluationID = some s → s.terminal = false
  | .submit env => ∀ row, DBWrite.create row ∈ (submitHandler env).writes →
      getEval st row.ID = none

/-- The guard `stepGuard` holds at every run of the sequence, each taken in
the table the runs before it leave. -/
def Guarded (db : Database) : Store → List Step → Prop
  | _, [] => True
  | st, s :: rest => stepGuard st s ∧ Guarded db (applyWrites db st s.writes) rest


/-! ## Documents without native text, and stubs for the extraction call -/

/-- Whether the PDF library yields a non-empty text for the page. -/
def PageOutcome.hasText : PageOutcome → Bool
  | .text pageText => decide (pageText ≠ "")
  | _ => false

/-- The native page-by-page extraction yields no text: the document cannot be
read, or none of its pages yields a non-empty text. -/
def PdfDocument.yieldsNoText : PdfDocument → Bool
  | .pages ps => ps.all (fun p => !p.hasText)
  | _ => true

/-- The body of a well-formed API response whose candidate text is `t` (for a
text that needs no JSON escaping). -/
def textBody (t : String) : String :=
  "\x7b\"candidates\":[\x7b\"content\":\x7b\"parts\":[\x7b\"text\":\"" ++ t
    ++ "\"\x7d]\x7d\x7d]\x7d"

/-- The tree `encoding/json` decodes `textBody t` into. -/
def textResponse (t : String) : JVal :=
  JVal.obj [("candidates", JVal.arr [JVal.obj [("content",
    JVal.obj [("parts", JVal.arr [JVal.obj [("text", JVal.str t)]])])]])]

/-- A remote stub for the extraction call: every model answers status 200
with `textBody t`; the decoder is `encoding/json` restricted to that body. -/
def stubText (t : String) : Remote where
  marshalScoring := fun _ => .ok "request"
  marshalPdf := fun _ => .ok "request"
  exchange := fun _ _ => .received 200 (textBody t)
  decode := fun s =>
    if s = textBody t then .ok (textResponse t) else .error (.new "invalid character")

/-- A PDF library stub: every document has one page, without text. -/
def stubScannedPdf (_data : List UInt8) : PdfDocument := .pages [.text ""]

/-- The first bytes of a PDF file. -/
def pdfMagic : List UInt8 := [37, 80, 68, 70]


/-! ## Inputs for the response reader and the submission handler -/

/-- The decoded response with a candidate list whose first element is the
number 1 instead of an object. -/
def numberCandidateResponse : JObj := [("candidates", JVal.arr [JVal.num 1])]

/-- The decoded response whose first candidate has a parts list with the
string "x" as first element instead of an object. -/
def stringPartResponse : JObj :=
  [("candidates", JVal.arr [JVal.obj [("content",
    JVal.obj [("parts", JVal.arr [JVal.str "x"])])]])]

/-- The row `HTTPHandler.Evaluate` hands to `Create`: the two references, the
status queued, and the zero value in every other column. -/
def newEvaluation (uploadID jobID : Nat) : Evaluation :=
  { ID := 0, UploadID := uploadID, JobID := jobID, Status := .queued,
    CVMatchRate := 0, CVFeedback := "", ProjectScore := 0,
    ProjectFeedback := "", OverallSummary := "", ResultJSON := none }


/-! ## `GeminiClient.ExtractTextFromFile` -/

/-- The function `strings.LastIndex` on the bytes of a Go string, for a
one-byte needle: the position of its last occurrence, or `-1`. -/
def lastIndexByte (s : List UInt8) (b : UInt8) : Int :=
  let i := s.reverse.indexOf b
  if i < s.length then ((s.length - 1 - i : Nat) : Int) else -1

/-- The slice expression `s[lo:]` on the bytes of a Go string; Go panics
unless `0 ≤ lo ≤ len(s)`, which is the result `none`. -/
def sliceFrom (s : List UInt8) (lo : Int) : Option (List UInt8) :=
  if 0 ≤ lo ∧ lo ≤ (s.length : Int) then some (s.drop lo.toNat) else none

/-- The byte of the character '.'. -/
def dotByte : UInt8 := 46

/-- The method `GeminiClient.ExtractTextFromFile`.  The file name and the
file content are byte sequences; `read` is what `io.ReadAll(file)` returns,
`toLower` is `strings.ToLower`, and the two callees of the PDF branch are
parameters as in `extractTextFromPDFWithFallback`. -/
def ExtractTextFromFile (toLower : List UInt8 → List UInt8)
    (native : List UInt8 → Outcome String) (remote : List UInt8 → PdfRun)
    (read : Except GoError (List UInt8)) (filename : List UInt8) : FallbackRun :=
  match read with
  | .error e => ⟨.err (.wrap "failed to read file: " (some e) ""), []⟩
  | .ok data =>
    match sliceFrom filename (lastIndexByte filename dotByte + 1) with
    | none => ⟨.panic "slice bounds out of range", []⟩
    | some extension =>
      let fileExtension := toLower extension
      if fileExtension = utf8 "txt" then ⟨.ok data, []⟩
      else if fileExtension = utf8 "pdf" then
        extractTextFromPDFWithFallback native remote data
      else if data.length > 10000 then ⟨.ok (data.take 10000), []⟩
      else ⟨.ok data, []⟩

/-- The function `strings.ToLower` on file names made of ASCII bytes: the
letters A to Z are moved to a to z, every other byte is kept. -/
def asciiToLower (s : List UInt8) : List UInt8 :=
  s.map (fun b => if 65 ≤ b.toNat ∧ b.toNat ≤ 90 then UInt8.ofNat (b.toNat + 32) else b)


/-! ## The outermost span of a response text -/

/-- The text `l` has the span `o m c` as its outermost one: `o` occurs first
right before `m`, and `c` occurs last right after `m`. -/
def HasSpan (o c : Char) (l m : List Char) : Prop :=
  ∃ a b, l = a ++ o :: (m ++ c :: b) ∧ o ∉ a ∧ c ∉ b


/-! ## Inputs on which an update is refused or a response is malformed -/

/-- A scoring result with both nested sections whose `cv.feedback` is an
object instead of a string. -/
def objectFeedbackResult : JObj :=
  [("cv", JVal.obj [("match_rate", JVal.num 0.82),
      ("feedback", JVal.obj [("a", JVal.num 1)])]),
   ("project", JVal.obj [("score", JVal.num 8.5),
      ("feedback", JVal.str "Good error handling")]),
   ("overall_summary", JVal.str "Solid candidate")]

/-- Collaborators like `exampleEnv`, but the scoring client returns
`objectFeedbackResult`. -/
def objectFeedbackEnv : WorkerEnv :=
  { exampleEnv with evaluate := fun _ _ _ _ => .ok objectFeedbackResult }

/-- A scoring result with both nested sections whose `cv.match_rate` is an
object instead of a number. -/
def objectMatchRateResult : JObj :=
  [("cv", JVal.obj [("match_rate", JVal.obj [("value", JVal.num 0.82)]),
      ("feedback", JVal.str "Strong backend exp")]),
   ("project", JVal.obj [("score", JVal.num 8.5),
      ("feedback", JVal.str "Good error handling")]),
   ("overall_summary", JVal.str "Solid candidate")]

/-- Collaborators like `exampleEnv`, but the scoring client returns
`objectMatchRateResult`. -/
def objectMatchRateEnv : WorkerEnv :=
  { exampleEnv with evaluate := fun _ _ _ _ => .ok objectMatchRateResult }

/-- The body of an API response whose candidate list holds the number 1. -/
def numberCandidateBody : String := "\x7b\"candidates\":[1]\x7d"

/-- A remote stub: every model answers status 200 with `numberCandidateBody`;
the decoder is `encoding/json` restricted to that body. -/
def stubNumberCandidate : Remote where
  marshalScoring := fun _ => .ok "request"
  marshalPdf := fun _ => .ok "request"
  exchange := fun _ _ => .received 200 numberCandidateBody
  decode := fun s =>
    if s = numberCandidateBody then .ok (JVal.obj numberCandidateResponse)
    else .error (.new "invalid character")


/-- Collaborators like `exampleEnv`, but the scoring client is `Evaluate` over
the remote stub `stubNumberCandidate`. -/
def panickingClientEnv : WorkerEnv :=
  { exampleEnv with
    evaluate := fun description rubric cv project =>
      (Evaluate (callGeminiWithModel stubNumberCandidate) description rubric cv project).result }

/-! # Theorems -/

/-! ## The fallback loop of `Evaluate` -/

/-- The loop returns the result of the first variant that succeeds when all
variants before it return an error, and calls exactly the variants up to it. -/
theorem evaluateLoop_first_success (call : String → String → Outcome JObj) (prompt : String)
    (r : JObj) (m : String) (post : List String) :
    ∀ (pre : List String) (lastError : Option GoError),
      (∀ x ∈ pre, ∃ e, call prompt x = .err e) → call prompt m = .ok r →
      evaluateLoop call prompt (pre ++ m :: post) lastError = ⟨.ok r, pre ++ [m]⟩ := by
  intro pre
  induction pre with
  | nil =>
    intro lastError _ hm
    simp [evaluateLoop, hm]
  | cons x xs ih =>
    intro lastError hpre hm
    obtain ⟨e, he⟩ := hpre x (List.mem_cons_self x xs)
    have hxs : ∀ y ∈ xs, ∃ e, call prompt y = .err e :=
      fun y hy => hpre y (List.mem_cons_of_mem x hy)
    simp [evaluateLoop, he, ih (some e) hxs hm]

/-- When every variant of the list returns an error, the loop calls each of
them once, in order, and returns the wrapped last error. -/
theorem evaluateLoop_all_fail (call : String → String → Outcome JObj) (prompt : String) :
    ∀ (models : List String) (lastError : Option GoError),
      (∀ x ∈ models, ∃ e, call prompt x = .err e) →
      ∃ last, evaluateLoop call prompt models lastError
          = ⟨.err (.wrap "all models failed: " last ""), models⟩
        ∧ (models = [] → last = lastError)
        ∧ (∀ x, models.getLast? = some x → ∃ e, last = some e ∧ call prompt x = .err e) := by
  intro models
  induction models with
  | nil =>
    intro lastError _
    exact ⟨lastError, by simp [evaluateLoop], fun _ => rfl, by simp⟩
  | cons x xs ih =>
    intro lastError hall
    obtain ⟨e, he⟩ := hall x (List.mem_cons_self x xs)
    have hxs : ∀ y ∈ xs, ∃ e, call prompt y = .err e :=
      fun y hy => hall y (List.mem_cons_of_mem x hy)
    obtain ⟨last, hrun, hnil, hlast⟩ := ih (some e) hxs
    refine ⟨last, by simp [evaluateLoop, he, hrun], by simp, ?_⟩
    intro y hy
    cases xs with
    | nil =>
      simp at hy
      subst hy
      exact ⟨e, hnil rfl, he⟩
    | cons z zs =>
      apply hlast
      simpa [List.getLast?_cons_cons] using hy

/-- When the loop returns an error, every variant of the list returned an
error. -/
theorem evaluateLoop_err_only_all_fail (call : String → String → Outcome JObj)
    (prompt : String) :
    ∀ (models : List String) (lastError : Option GoError) (e : GoError),
      (evaluateLoop call prompt models lastError).result = .err e →
      ∀ x ∈ models, ∃ e1, call prompt x = .err e1 := by
  intro models
  induction models with
  | nil => intro _ _ _ x hx; simp at hx
  | cons y ys ih =>
    intro lastError e hres x hx
    cases hy : call prompt y with
    | ok a => simp [evaluateLoop, hy] at hres
    | panic msg => simp [evaluateLoop, hy] at hres
    | err e1 =>
      simp only [evaluateLoop, hy] at hres
      rcases List.mem_cons.mp hx with h | h
      · exact ⟨e1, h ▸ hy⟩
      · exact ih (some e1) e hres x h

/-- C1: when the calls for variants 1..k-1 return an error and the call for
variant k (1 ≤ k ≤ 5, in the fixed list order) succeeds with result `r`,
`Evaluate` returns `r` with no error, its calls are exactly the variants 1..k
in list order, and no variant after k is called. -/
theorem evaluate_returns_first_success (call : String → String → Outcome JObj)
    (description rubric cv project : String) (k : Nat) (r : JObj) (m : String)
    (hk : 1 ≤ k) (hk5 : k ≤ 5)
    (hfail : ∀ x ∈ evaluateModels.take (k - 1),
      ∃ e, call (buildPrompt description rubric cv project) x = .err e)
    (hm : evaluateModels.get? (k - 1) = some m)
    (hok : call (buildPrompt description rubric cv project) m = .ok r) :
    (Evaluate call description rubric cv project).result = .ok r
      ∧ (Evaluate call description rubric cv project).calls = evaluateModels.take k
      ∧ (Evaluate call description rubric cv project).calls.length = k
      ∧ ∀ x ∈ evaluateModels.drop k,
          x ∉ (Evaluate call description rubric cv project).calls := by
  have hsplit : evaluateModels
      = evaluateModels.take (k - 1) ++ m :: evaluateModels.drop k := by
    interval_cases k <;> simp [evaluateModels] at hm ⊢ <;> exact hm
  have hrun : Evaluate call description rubric cv project
      = ⟨.ok r, evaluateModels.take (k - 1) ++ [m]⟩ := by
    unfold Evaluate
    conv_lhs => rw [hsplit]
    exact evaluateLoop_first_success call _ r m _ _ none hfail hok
  have htake : evaluateModels.take (k - 1) ++ [m] = evaluateModels.take k := by
    interval_cases k <;> simp [evaluateModels] at hm ⊢ <;> exact hm.symm
  rw [hrun, htake]
  refine ⟨rfl, rfl, ?_, ?_⟩
  · interval_cases k <;> simp [evaluateModels]
  · interval_cases k <;> simp [evaluateModels]

/-- Witness for C1 with k = 2: the first variant fails, the second succeeds. -/
theorem evaluate_returns_first_success_witness :
    (Evaluate stubSecondWins "d" "r" "c" "p").result = .ok []
      ∧ (Evaluate stubSecondWins "d" "r" "c" "p").calls = evaluateModels.take 2
      ∧ (Evaluate stubSecondWins "d" "r" "c" "p").calls.length = 2
      ∧ ∀ x ∈ evaluateModels.drop 2, x ∉ (Evaluate stubSecondWins "d" "r" "c" "p").calls :=
  evaluate_returns_first_success stubSecondWins "d" "r" "c" "p" 2 [] "gemini-2.0-flash"
    (by decide) (by decide)
    (by intro x hx; simp [evaluateModels] at hx; subst hx; exact ⟨_, rfl⟩)
    (by simp [evaluateModels]) (by simp [stubSecondWins])

/-- C2: when the call for every one of the five variants returns an error,
`Evaluate` returns no result and one error that wraps the error of the fifth
variant (`gemini-flash-latest`), having called each variant once in list
order; and `Evaluate` returns an error only when all five calls returned an
error. -/
theorem evaluate_error_iff_all_fail (call : String → String → Outcome JObj)
    (description rubric cv project : String) :
    ((∀ x ∈ evaluateModels, ∃ e, call (buildPrompt description rubric cv project) x = .err e) →
        ∃ e5, call (buildPrompt description rubric cv project) "gemini-flash-latest" = .err e5
          ∧ (Evaluate call description rubric cv project).result
              = .err (.wrap "all models failed: " (some e5) "")
          ∧ (GoError.wrap "all models failed: " (some e5) "").unwrap = some e5
          ∧ (Evaluate call description rubric cv project).calls = evaluateModels)
      ∧ (∀ e, (Evaluate call description rubric cv project).result = .err e →
          ∀ x ∈ evaluateModels,
            ∃ e1, call (buildPrompt description rubric cv project) x = .err e1) := by
  constructor
  · intro hall
    obtain ⟨last, hrun, _, hlast⟩ := evaluateLoop_all_fail call _ evaluateModels none hall
    obtain ⟨e5, h5, hcall⟩ := hlast "gemini-flash-latest" (by simp [evaluateModels])
    subst h5
    exact ⟨e5, hcall, by simp [Evaluate, hrun], rfl, by simp [Evaluate, hrun]⟩
  · intro e hres
    exact evaluateLoop_err_only_all_fail call _ evaluateModels none e hres

/-- Witness for C2: a stub in which every variant fails with its own name. -/
theorem evaluate_error_iff_all_fail_witness :
    (Evaluate stubAllFail "d" "r" "c" "p").result
        = .err (.wrap "all models failed: " (some (.new "gemini-flash-latest")) "")
      ∧ (Evaluate stubAllFail "d" "r" "c" "p").calls = evaluateModels := by
  obtain ⟨e5, h5, hres, _, hcalls⟩ :=
    (evaluate_error_iff_all_fail stubAllFail "d" "r" "c" "p").1
      (fun x _ => ⟨.new x, rfl⟩)
  have h : e5 = .new "gemini-flash-latest" := by
    simp only [stubAllFail] at h5
    exact (Outcome.err.inj h5).symm
  subst h
  exact ⟨hres, hcalls⟩


/-! ## What makes a variant win -/

/-- A call of `callGeminiWithModel` succeeds exactly when the request is
built, the exchange ends with status 200, the body decodes into a map, a
candidate text is found in it, and the cleaned text decodes into a map. -/
theorem callGeminiWithModel_ok_iff (env : Remote) (prompt model : String) (res : JObj) :
    callGeminiWithModel env prompt model = .ok res ↔
      ∃ jsonData body apiResponse text,
        env.marshalScoring prompt = .ok jsonData
          ∧ env.exchange model jsonData = .received 200 body
          ∧ unmarshalMap env.decode body = .ok apiResponse
          ∧ extractTextFromResponse apiResponse = .ok text
          ∧ unmarshalMap env.decode (cleanJSONResponse text) = .ok res := by
  constructor
  · intro h
    unfold callGeminiWithModel at h
    split at h
    · exact absurd h (by simp)
    · rename_i jsonData hj
      split at h
      · exact absurd h (by simp)
      · exact absurd h (by simp)
      · exact absurd h (by simp)
      · rename_i status body hx
        split at h
        · exact absurd h (by simp)
        · rename_i hs
          have hs200 : status = 200 := by simpa using hs
          subst hs200
          split at h
          · exact absurd h (by simp)
          · rename_i apiResponse ha
            split at h
            · exact absurd h (by simp)
            · exact absurd h (by simp)
            · rename_i text ht
              simp only at h
              split at h
              · exact absurd h (by simp)
              · rename_i result hr
                have hres : result = res := Outcome.ok.inj h
                subst hres
                exact ⟨jsonData, body, apiResponse, text, hj, hx, ha, ht, hr⟩
  · rintro ⟨jsonData, body, apiResponse, text, hj, hx, ha, ht, hr⟩
    simp [callGeminiWithModel, hj, hx, ha, ht, hr]

/-- A loop that returns a result returns the result of the first variant
whose call did not return an error, and calls exactly the variants up to it. -/
theorem evaluateLoop_ok_split (call : String → String → Outcome JObj) (prompt : String)
    (res : JObj) :
    ∀ (models : List String) (lastError : Option GoError),
      (evaluateLoop call prompt models lastError).result = .ok res →
      ∃ pre m post, models = pre ++ m :: post
        ∧ (∀ x ∈ pre, ∃ e, call prompt x = .err e)
        ∧ call prompt m = .ok res
        ∧ (evaluateLoop call prompt models lastError).calls = pre ++ [m] := by
  intro models
  induction models with
  | nil => intro lastError h; simp [evaluateLoop] at h
  | cons y ys ih =>
    intro lastError h
    cases hy : call prompt y with
    | ok a =>
      simp only [evaluateLoop, hy] at h
      have ha : a = res := Outcome.ok.inj h
      subst ha
      exact ⟨[], y, ys, rfl, by simp, hy, by simp [evaluateLoop, hy]⟩
    | panic msg => simp [evaluateLoop, hy] at h
    | err e =>
      simp only [evaluateLoop, hy] at h
      obtain ⟨pre, m, post, hsplit, hpre, hm, hcalls⟩ := ih (some e) h
      refine ⟨y :: pre, m, post, by simp [hsplit], ?_, hm, by simp [evaluateLoop, hy, hcalls]⟩
      intro x hx
      rcases List.mem_cons.mp hx with hxy | hxp
      · exact ⟨e, hxy ▸ hy⟩
      · exact hpre x hxp

/-- C3, as the code has it: `Evaluate` makes no shape check.  A variant wins
exactly when its call succeeds, that is when its cleaned response text decodes
into a map (a JSON object, or `null`); the result returned without error is
the decoded map of the first variant whose call did not return an error, no
later variant is called, and the nested `cv` and `project` objects are not
looked at. -/
theorem evaluate_returns_first_decoded_object (env : Remote)
    (description rubric cv project : String) (res : JObj)
    (h : (Evaluate (callGeminiWithModel env) description rubric cv project).result = .ok res) :
    ∃ pre m post jsonData body apiResponse text,
      evaluateModels = pre ++ m :: post
        ∧ (∀ x ∈ pre, ∃ e,
            callGeminiWithModel env (buildPrompt description rubric cv project) x = .err e)
        ∧ env.marshalScoring (buildPrompt description rubric cv project) = .ok jsonData
        ∧ env.exchange m jsonData = .received 200 body
        ∧ unmarshalMap env.decode body = .ok apiResponse
        ∧ extractTextFromResponse apiResponse = .ok text
        ∧ unmarshalMap env.decode (cleanJSONResponse text) = .ok res
        ∧ (Evaluate (callGeminiWithModel env) description rubric cv project).calls
            = pre ++ [m] := by
  obtain ⟨pre, m, post, hsplit, hpre, hm, hcalls⟩ :=
    evaluateLoop_ok_split (callGeminiWithModel env) _ res evaluateModels none h
  obtain ⟨jsonData, body, apiResponse, text, hj, hx, ha, ht, hr⟩ :=
    (callGeminiWithModel_ok_iff env _ m res).mp hm
  exact ⟨pre, m, post, jsonData, body, apiResponse, text, hsplit, hpre, hj, hx, ha, ht, hr,
    hcalls⟩

/-- The run of `Evaluate` against `stubEmptyObject`. -/
theorem evaluate_stubEmptyObject :
    Evaluate (callGeminiWithModel stubEmptyObject) "d" "r" "c" "p"
      = ⟨.ok [], ["gemini-2.0-flash-001"]⟩ := by
  rfl

/-- Counterexample to C3 as stated: the first variant answers with a text
that parses as JSON, the empty object, which has neither a `cv` nor a
`project` entry; `Evaluate` returns it without error and calls no second
variant. -/
theorem evaluate_accepts_result_without_shape :
    (Evaluate (callGeminiWithModel stubEmptyObject) "d" "r" "c" "p").result = .ok []
      ∧ hasRequiredShape [] = false
      ∧ (Evaluate (callGeminiWithModel stubEmptyObject) "d" "r" "c" "p").calls
          = ["gemini-2.0-flash-001"] := by
  rw [evaluate_stubEmptyObject]
  exact ⟨rfl, rfl, rfl⟩

/-- Witness for C3: the run against `stubEmptyObject` returns the decoded
map of the first variant. -/
theorem evaluate_returns_first_decoded_object_witness :
    ∃ pre m post jsonData body apiResponse text,
      evaluateModels = pre ++ m :: post
        ∧ (∀ x ∈ pre, ∃ e,
            callGeminiWithModel stubEmptyObject (buildPrompt "d" "r" "c" "p") x = .err e)
        ∧ stubEmptyObject.marshalScoring (buildPrompt "d" "r" "c" "p") = .ok jsonData
        ∧ stubEmptyObject.exchange m jsonData = .received 200 body
        ∧ unmarshalMap stubEmptyObject.decode body = .ok apiResponse
        ∧ extractTextFromResponse apiResponse = .ok text
        ∧ unmarshalMap stubEmptyObject.decode (cleanJSONResponse text) = .ok []
        ∧ (Evaluate (callGeminiWithModel stubEmptyObject) "d" "r" "c" "p").calls
            = pre ++ [m] :=
  evaluate_returns_first_decoded_object stubEmptyObject "d" "r" "c" "p" []
    (by rw [evaluate_stubEmptyObject])


/-! ## The evaluation table -/

/-- A row found under an id carries that id. -/
theorem getEval_id {st : Store} {id : Nat} {r : Evaluation} (h : getEval st id = some r) :
    r.ID = id := by
  have := List.find?_some h
  simpa using this

/-- Looking up a row after a row-wise change that keeps ids. -/
theorem getEval_map (f : Evaluation → Evaluation) (hf : ∀ r, (f r).ID = r.ID) (st : Store)
    (id : Nat) : getEval (st.map f) id = (getEval st id).map f := by
  have hcomp : ((fun r : Evaluation => r.ID == id) ∘ f) = (fun r => r.ID == id) := by
    funext r
    simp [hf]
  simp [getEval, List.find?_map, hcomp]

/-- A status update sets the status of the row it names and nothing else. -/
theorem getEval_updateStatus (db : Database) (st : Store) (i id : Nat) (s : Status) :
    getEval (applyWrite db st (.updateStatus i s)) id
      = (getEval st id).map (fun r => if r.ID = i then { r with Status := s } else r) := by
  unfold applyWrite
  apply getEval_map
  intro r
  split <;> rfl

/-- The result update the database accepts sets the seven columns of the row
it names, to the values the database stores, and nothing else. -/
theorem getEval_updates_accepted (db : Database) (st : Store) (i id : Nat) (s : Status)
    (a b c d e : JVal) (j : String) (v : StoredResult)
    (hv : db.convert a b c d e j = some v) :
    getEval (applyWrite db st (.updates i s a b c d e j)) id
      = (getEval st id).map (fun r =>
          if r.ID = i then
            { r with Status := s, CVMatchRate := v.cvMatchRate, CVFeedback := v.cvFeedback,
                     ProjectScore := v.projectScore, ProjectFeedback := v.projectFeedback,
                     OverallSummary := v.overallSummary, ResultJSON := some v.resultJSON }
          else r) := by
  simp only [applyWrite, hv]
  apply getEval_map
  intro r
  split <;> rfl

/-- The result update the database refuses changes nothing. -/
theorem applyWrite_updates_refused (db : Database) (st : Store) (i : Nat) (s : Status)
    (a b c d e : JVal) (j : String) (hv : db.convert a b c d e j = none) :
    applyWrite db st (.updates i s a b c d e j) = st := by
  simp only [applyWrite, hv]

/-- The six values of an accepted update are what the database makes of the
six values handed to it. -/
theorem convert_eq_some (db : Database) (a b c d e : JVal) (j : String) (v : StoredResult)
    (hv : db.convert a b c d e j = some v) :
    db.floatColumn a = some v.cvMatchRate ∧ db.textColumn b = some v.cvFeedback
      ∧ db.floatColumn c = some v.projectScore ∧ db.textColumn d = some v.projectFeedback
      ∧ db.textColumn e = some v.overallSummary ∧ db.jsonColumn j = some v.resultJSON := by
  unfold Database.convert at hv
  split at hv
  · rename_i h1 h2 h3 h4 h5 h6
    cases hv
    exact ⟨h1, h2, h3, h4, h5, h6⟩
  · cases hv

/-- The checked assertion to a map succeeds exactly on a JSON object. -/
theorem asObject_eq_some (v : JVal) (m : JObj) : v.asObject = some m ↔ v = .obj m := by
  cases v <;> simp [JVal.asObject]

/-! ## One run of the worker handler -/

/-- The run when the job load fails. -/
theorem workerHandler_job_error (env : WorkerEnv) (job : EvaluationJob) (e : GoError)
    (hj : env.loadJob job.JobID = .error e) :
    workerHandler env job
      = ⟨[.updateStatus job.EvaluationID .processing,
          .updateStatus job.EvaluationID .failed], [], false⟩ := by
  simp [workerHandler, hj]

/-- The run when the job loads and the upload load fails. -/
theorem workerHandler_upload_error (env : WorkerEnv) (job : EvaluationJob) (jobMeta : Job)
    (e : GoError) (hj : env.loadJob job.JobID = .ok jobMeta)
    (hu : env.loadUpload job.UploadID = .error e) :
    workerHandler env job
      = ⟨[.updateStatus job.EvaluationID .processing,
          .updateStatus job.EvaluationID .failed], [], false⟩ := by
  simp [workerHandler, hj, hu]

/-- The run when both loads succeed and the client returns an error. -/
theorem workerHandler_client_error (env : WorkerEnv) (job : EvaluationJob) (jobMeta : Job)
    (upload : Upload) (e : GoError) (hj : env.loadJob job.JobID = .ok jobMeta)
    (hu : env.loadUpload job.UploadID = .ok upload)
    (he : env.evaluate jobMeta.Description jobMeta.Rubric upload.CVText upload.ProjectText
      = .err e) :
    workerHandler env job
      = ⟨[.updateStatus job.EvaluationID .processing,
          .updateStatus job.EvaluationID .failed],
         [(jobMeta.Description, jobMeta.Rubric, upload.CVText, upload.ProjectText)],
         false⟩ := by
  simp [workerHandler, hj, hu, he]

/-- The run when the client returns a result in which `cv` or `project` is
not a JSON object. -/
theorem workerHandler_bad_shape (env : WorkerEnv) (job : EvaluationJob) (jobMeta : Job)
    (upload : Upload) (result : JObj) (hj : env.loadJob job.JobID = .ok jobMeta)
    (hu : env.loadUpload job.UploadID = .ok upload)
    (he : env.evaluate jobMeta.Description jobMeta.Rubric upload.CVText upload.ProjectText
      = .ok result)
    (hmiss : (result.index "cv").asObject = none ∨ (result.index "project").asObject = none) :
    workerHandler env job
      = ⟨[.updateStatus job.EvaluationID .processing,
          .updateStatus job.EvaluationID .failed],
         [(jobMeta.Description, jobMeta.Rubric, upload.CVText, upload.ProjectText)],
         false⟩ := by
  rcases hmiss with h | h
  · simp [workerHandler, hj, hu, he, h]
  · cases hcv : (result.index "cv").asObject <;> simp [workerHandler, hj, hu, he, h, hcv]

/-- The run when the client returns a result with both nested objects. -/
theorem workerHandler_good_shape (env : WorkerEnv) (job : EvaluationJob) (jobMeta : Job)
    (upload : Upload) (result cv project : JObj) (hj : env.loadJob job.JobID = .ok jobMeta)
    (hu : env.loadUpload job.UploadID = .ok upload)
    (he : env.evaluate jobMeta.Description jobMeta.Rubric upload.CVText upload.ProjectText
      = .ok result)
    (hcv : (result.index "cv").asObject = some cv)
    (hpr : (result.index "project").asObject = some project) :
    workerHandler env job
      = ⟨[.updateStatus job.EvaluationID .processing,
          .updates job.EvaluationID .completed (cv.index "match_rate") (cv.index "feedback")
            (project.index "score") (project.index "feedback")
            (result.index "overall_summary") (env.marshal result)],
         [(jobMeta.Description, jobMeta.Rubric, upload.CVText, upload.ProjectText)],
         false⟩ := by
  simp [workerHandler, hj, hu, he, hcv, hpr]

/-- The row after a run in which a load fails, the client returns an error,
or a section of the result is missing: it is marked failed. -/
theorem runWorker_failed (db : Database) (env : WorkerEnv) (job : EvaluationJob) (st : Store)
    (r : Evaluation) (hex : getEval st job.EvaluationID = some r)
    (hw : (workerHandler env job).writes
      = [.updateStatus job.EvaluationID .processing,
         .updateStatus job.EvaluationID .failed]) :
    getEval (runWorker db env job st) job.EvaluationID = some { r with Status := .failed } := by
  have hid := getEval_id hex
  simp [runWorker, hw, applyWrites, getEval_updateStatus, hex, hid]

/-- The row after a run whose result has both sections and whose values the
database accepts: it is completed and holds the values the database stores. -/
theorem runWorker_accepted (db : Database) (env : WorkerEnv) (job : EvaluationJob)
    (st : Store) (r : Evaluation) (jobMeta : Job) (upload : Upload)
    (result cv project : JObj) (v : StoredResult)
    (hex : getEval st job.EvaluationID = some r)
    (hj : env.loadJob job.JobID = .ok jobMeta)
    (hu : env.loadUpload job.UploadID = .ok upload)
    (he : env.evaluate jobMeta.Description jobMeta.Rubric upload.CVText upload.ProjectText
      = .ok result)
    (hcv : result.index "cv" = .obj cv)
    (hpr : result.index "project" = .obj project)
    (hv : db.convert (cv.index "match_rate") (cv.index "feedback") (project.index "score")
      (project.index "feedback") (result.index "overall_summary") (env.marshal result)
      = some v) :
    getEval (runWorker db env job st) job.EvaluationID
      = some { r with
          Status := .completed
          CVMatchRate := v.cvMatchRate
          CVFeedback := v.cvFeedback
          ProjectScore := v.projectScore
          ProjectFeedback := v.projectFeedback
          OverallSummary := v.overallSummary
          ResultJSON := some v.resultJSON } := by
  have hw := workerHandler_good_shape env job jobMeta upload result cv project hj hu he
    ((asObject_eq_some _ _).mpr hcv) ((asObject_eq_some _ _).mpr hpr)
  have hid := getEval_id hex
  simp [runWorker, hw, applyWrites, getEval_updateStatus,
    getEval_updates_accepted db _ _ _ _ _ _ _ _ _ _ v hv, hex, hid]

/-- The row after a run whose result has both sections and one of whose
values the database refuses: the update fails, the handler ignores the error,
and the row stays as the first write left it, with status processing. -/
theorem runWorker_refused (db : Database) (env : WorkerEnv) (job : EvaluationJob)
    (st : Store) (r : Evaluation) (jobMeta : Job) (upload : Upload)
    (result cv project : JObj)
    (hex : getEval st job.EvaluationID = some r)
    (hj : env.loadJob job.JobID = .ok jobMeta)
    (hu : env.loadUpload job.UploadID = .ok upload)
    (he : env.evaluate jobMeta.Description jobMeta.Rubric upload.CVText upload.ProjectText
      = .ok result)
    (hcv : result.index "cv" = .obj cv)
    (hpr : result.index "project" = .obj project)
    (hv : db.convert (cv.index "match_rate") (cv.index "feedback") (project.index "score")
      (project.index "feedback") (result.index "overall_summary") (env.marshal result)
      = none) :
    getEval (runWorker db env job st) job.EvaluationID
      = some { r with Status := .processing } := by
  have hw := workerHandler_good_shape env job jobMeta upload result cv project hj hu he
    ((asObject_eq_some _ _).mpr hcv) ((asObject_eq_some _ _).mpr hpr)
  have hid := getEval_id hex
  simp [runWorker, hw, applyWrites, getEval_updateStatus,
    applyWrite_updates_refused db _ _ _ _ _ _ _ _ _ hv, hex, hid]

/-- The writes of a run in which the client returns and the loads, the client
or the shape of the result fail: processing, then failed. -/
theorem workerHandler_writes_failed (env : WorkerEnv) (job : EvaluationJob)
    (hret : ∀ d ru c p, (env.evaluate d ru c p).returned = true)
    (hno : ¬ ∃ (jobMeta : Job) (upload : Upload) (result cv project : JObj),
      env.loadJob job.JobID = .ok jobMeta
        ∧ env.loadUpload job.UploadID = .ok upload
        ∧ env.evaluate jobMeta.Description jobMeta.Rubric upload.CVText upload.ProjectText
            = .ok result
        ∧ result.index "cv" = .obj cv
        ∧ result.index "project" = .obj project) :
    (workerHandler env job).writes
      = [.updateStatus job.EvaluationID .processing,
         .updateStatus job.EvaluationID .failed] := by
  cases hj : env.loadJob job.JobID with
  | error e => rw [workerHandler_job_error env job e hj]
  | ok jobMeta =>
    cases hu : env.loadUpload job.UploadID with
    | error e => rw [workerHandler_upload_error env job jobMeta e hj hu]
    | ok upload =>
      cases he : env.evaluate jobMeta.Description jobMeta.Rubric upload.CVText
          upload.ProjectText with
      | panic msg =>
        have := hret jobMeta.Description jobMeta.Rubric upload.CVText upload.ProjectText
        simp [he, Outcome.returned] at this
      | err e => rw [workerHandler_client_error env job jobMeta upload e hj hu he]
      | ok result =>
        have hmiss : (result.index "cv").asObject = none
            ∨ (result.index "project").asObject = none := by
          by_contra hcon
          push_neg at hcon
          obtain ⟨cv, hcv⟩ := Option.ne_none_iff_exists'.mp hcon.1
          obtain ⟨pr, hpr⟩ := Option.ne_none_iff_exists'.mp hcon.2
          exact hno ⟨jobMeta, upload, result, cv, pr, hj, hu, he,
            (asObject_eq_some _ _).mp hcv, (asObject_eq_some _ _).mp hpr⟩
        rw [workerHandler_bad_shape env job jobMeta upload result hj hu he hmiss]

/-- C4, as the code has it: for a descriptor whose evaluation row exists, and
for every pair the job load, the upload load and the scoring client return,
one run of the worker handler issues two writes, the first of which sets the
status to processing.  The row ends failed exactly when a load failed, the
client returned an error, or the result lacks a `cv` or a `project` entry
that is a JSON object.  Otherwise the second write is the update of the value
columns with status completed, whose error the handler ignores: the row ends
completed exactly when the database accepts the six values of that update,
and stays processing exactly when the database refuses one of them. -/
theorem worker_run_final_status (db : Database) (env : WorkerEnv) (job : EvaluationJob)
    (st : Store) (r : Evaluation) (hex : getEval st job.EvaluationID = some r)
    (hret : ∀ d ru c p, (env.evaluate d ru c p).returned = true) :
    (∃ w, (workerHandler env job).writes
        = [.updateStatus job.EvaluationID .processing, w])
      ∧ statusOf (applyWrite db st (.updateStatus job.EvaluationID .processing))
          job.EvaluationID = some .processing
      ∧ (statusOf (runWorker db env job st) job.EvaluationID = some .failed
          ∨ statusOf (runWorker db env job st) job.EvaluationID = some .completed
          ∨ statusOf (runWorker db env job st) job.EvaluationID = some .processing)
      ∧ (statusOf (runWorker db env job st) job.EvaluationID = some .failed ↔
          ¬ ∃ (jobMeta : Job) (upload : Upload) (result cv project : JObj),
            env.loadJob job.JobID = .ok jobMeta
              ∧ env.loadUpload job.UploadID = .ok upload
              ∧ env.evaluate jobMeta.Description jobMeta.Rubric upload.CVText
                  upload.ProjectText = .ok result
              ∧ result.index "cv" = .obj cv
              ∧ result.index "project" = .obj project)
      ∧ (statusOf (runWorker db env job st) job.EvaluationID = some .completed ↔
          ∃ (jobMeta : Job) (upload : Upload) (result cv project : JObj) (v : StoredResult),
            env.loadJob job.JobID = .ok jobMeta
              ∧ env.loadUpload job.UploadID = .ok upload
              ∧ env.evaluate jobMeta.Description jobMeta.Rubric upload.CVText
                  upload.ProjectText = .ok result
              ∧ result.index "cv" = .obj cv
              ∧ result.index "project" = .obj project
              ∧ db.convert (cv.index "match_rate") (cv.index "feedback")
                  (project.index "score") (project.index "feedback")
                  (result.index "overall_summary") (env.marshal result) = some v)
      ∧ (statusOf (runWorker db env job st) job.EvaluationID = some .processing ↔
          ∃ (jobMeta : Job) (upload : Upload) (result cv project : JObj),
            env.loadJob job.JobID = .ok jobMeta
              ∧ env.loadUpload job.UploadID = .ok upload
              ∧ env.evaluate jobMeta.Description jobMeta.Rubric upload.CVText
                  upload.ProjectText = .ok result
              ∧ result.index "cv" = .obj cv
              ∧ result.index "project" = .obj project
              ∧ db.convert (cv.index "match_rate") (cv.index "feedback")
                  (project.index "score") (project.index "feedback")
                  (result.index "overall_summary") (env.marshal result) = none) := by
  have hid := getEval_id hex
  have hproc : statusOf (applyWrite db st (.updateStatus job.EvaluationID .processing))
      job.EvaluationID = some .processing := by
    simp [statusOf, getEval_updateStatus, hex, hid]
  by_cases hshape : ∃ (jobMeta : Job) (upload : Upload) (result cv project : JObj),
      env.loadJob job.JobID = .ok jobMeta
        ∧ env.loadUpload job.UploadID = .ok upload
        ∧ env.evaluate jobMeta.Description jobMeta.Rubric upload.CVText upload.ProjectText
            = .ok result
        ∧ result.index "cv" = .obj cv
        ∧ result.index "project" = .obj project
  · obtain ⟨jobMeta, upload, result, cv, project, hj, hu, he, hcv, hpr⟩ := hshape
    have huniq : ∀ (jobMeta1 : Job) (upload1 : Upload) (result1 cv1 project1 : JObj),
        env.loadJob job.JobID = .ok jobMeta1 → env.loadUpload job.UploadID = .ok upload1 →
        env.evaluate jobMeta1.Description jobMeta1.Rubric upload1.CVText upload1.ProjectText
          = .ok result1 →
        result1.index "cv" = .obj cv1 → result1.index "project" = .obj project1 →
        result1 = result ∧ cv1 = cv ∧ project1 = project := by
      intro jobMeta1 upload1 result1 cv1 project1 h1 h2 h3 h4 h5
      rw [hj] at h1
      cases h1
      rw [hu] at h2
      cases h2
      rw [he] at h3
      cases h3
      rw [hcv] at h4
      cases h4
      rw [hpr] at h5
      cases h5
      exact ⟨rfl, rfl, rfl⟩
    have hfirst : ∃ w, (workerHandler env job).writes
        = [.updateStatus job.EvaluationID .processing, w] :=
      ⟨_, by rw [workerHandler_good_shape env job jobMeta upload result cv project hj hu he
        ((asObject_eq_some _ _).mpr hcv) ((asObject_eq_some _ _).mpr hpr)]⟩
    cases hv : db.convert (cv.index "match_rate") (cv.index "feedback")
        (project.index "score") (project.index "feedback")
        (result.index "overall_summary") (env.marshal result) with
    | some v =>
      have hfinal := runWorker_accepted db env job st r jobMeta upload result cv project v
        hex hj hu he hcv hpr hv
      have hstat : statusOf (runWorker db env job st) job.EvaluationID = some .completed := by
        simp [statusOf, hfinal]
      rw [hstat]
      refine ⟨hfirst, hproc, Or.inr (Or.inl rfl), ?_, ?_, ?_⟩
      · constructor
        · intro h
          cases h
        · intro h
          exact absurd ⟨jobMeta, upload, result, cv, project, hj, hu, he, hcv, hpr⟩ h
      · constructor
        · intro _
          exact ⟨jobMeta, upload, result, cv, project, v, hj, hu, he, hcv, hpr, hv⟩
        · intro _
          rfl
      · constructor
        · intro h
          cases h
        · rintro ⟨jobMeta1, upload1, result1, cv1, project1, h1, h2, h3, h4, h5, h6⟩
          obtain ⟨e1, e2, e3⟩ := huniq jobMeta1 upload1 result1 cv1 project1 h1 h2 h3 h4 h5
          subst e1 e2 e3
          rw [hv] at h6
          cases h6
    | none =>
      have hfinal := runWorker_refused db env job st r jobMeta upload result cv project
        hex hj hu he hcv hpr hv
      have hstat : statusOf (runWorker db env job st) job.EvaluationID = some .processing := by
        simp [statusOf, hfinal]
      rw [hstat]
      refine ⟨hfirst, hproc, Or.inr (Or.inr rfl), ?_, ?_, ?_⟩
      · constructor
        · intro h
          cases h
        · intro h
          exact absurd ⟨jobMeta, upload, result, cv, project, hj, hu, he, hcv, hpr⟩ h
      · constructor
        · intro h
          cases h
        · rintro ⟨jobMeta1, upload1, result1, cv1, project1, v, h1, h2, h3, h4, h5, h6⟩
          obtain ⟨e1, e2, e3⟩ := huniq jobMeta1 upload1 result1 cv1 project1 h1 h2 h3 h4 h5
          subst e1 e2 e3
          rw [hv] at h6
          cases h6
      · constructor
        · intro _
          exact ⟨jobMeta, upload, result, cv, project, hj, hu, he, hcv, hpr, hv⟩
        · intro _
          rfl
  · have hw := workerHandler_writes_failed env job hret hshape
    have hfirst : ∃ w, (workerHandler env job).writes
        = [.updateStatus job.EvaluationID .processing, w] := ⟨_, hw⟩
    have hfinal := runWorker_failed db env job st r hex hw
    have hstat : statusOf (runWorker db env job st) job.EvaluationID = some .failed := by
      simp [statusOf, hfinal]
    rw [hstat]
    refine ⟨hfirst, hproc, Or.inl rfl, ?_, ?_, ?_⟩
    · exact ⟨fun _ => hshape, fun _ => rfl⟩
    · constructor
      · intro h
        cases h
      · rintro ⟨jobMeta, upload, result, cv, project, v, hj, hu, he, hcv, hpr, _⟩
        exact absurd ⟨jobMeta, upload, result, cv, project, hj, hu, he, hcv, hpr⟩ hshape
    · constructor
      · intro h
        cases h
      · rintro ⟨jobMeta, upload, result, cv, project, hj, hu, he, hcv, hpr, _⟩
        exact absurd ⟨jobMeta, upload, result, cv, project, hj, hu, he, hcv, hpr⟩ hshape

/-- Witness for C4: the example scenario, whose values the database accepts,
ends completed. -/
theorem worker_run_final_status_witness :
    getEval exampleStore 42 = some exampleRow
      ∧ statusOf (runWorker stubDb exampleEnv exampleJob exampleStore) 42 = some .completed :=
  ⟨rfl,
   ((worker_run_final_status stubDb exampleEnv exampleJob exampleStore exampleRow rfl
      (fun _ _ _ _ => rfl)).2.2.2.2.1).mpr
     ⟨_, _, exampleResult, _, _,
      ⟨0.82, "Strong backend exp", 8.5, "Good error handling", "Solid candidate",
        exampleEnv.marshal exampleResult⟩,
      rfl, rfl, rfl, rfl, rfl, rfl⟩⟩

/-- Counterexample to C4 as stated: the job loads, the upload loads, the
client returns without error and the result has a `cv` and a `project` entry
that are JSON objects, but `cv.feedback` is an object, which the database
refuses for a text column; the handler ignores the error of the update and the
row ends processing, neither completed nor failed. -/
theorem worker_run_stays_processing_when_update_refused :
    objectFeedbackEnv.loadJob exampleJob.JobID
        = .ok ⟨2, "Test Job", "Backend evaluation system with AI", "\x7b\x7d"⟩
      ∧ objectFeedbackEnv.loadUpload exampleJob.UploadID
        = .ok ⟨7, "Jane Doe", "jane@example.com", "CV text", "Project text"⟩
      ∧ objectFeedbackEnv.evaluate "Backend evaluation system with AI" "\x7b\x7d" "CV text"
          "Project text" = .ok objectFeedbackResult
      ∧ objectFeedbackResult.index "cv"
        = .obj [("match_rate", JVal.num 0.82), ("feedback", JVal.obj [("a", JVal.num 1)])]
      ∧ objectFeedbackResult.index "project"
        = .obj [("score", JVal.num 8.5), ("feedback", JVal.str "Good error handling")]
      ∧ statusOf (runWorker stubDb objectFeedbackEnv exampleJob exampleStore) 42
        = some .processing := by
  refine ⟨rfl, rfl, rfl, rfl, rfl, ?_⟩
  rfl

/-- C5: when loading the job by its id fails, or loading the upload by its id
fails, the worker handler makes no call to the scoring client; it writes
processing and then failed, and stops, so the evaluation row (when it exists)
ends failed. -/
theorem worker_load_failure_fails_without_call (db : Database) (env : WorkerEnv)
    (job : EvaluationJob) (st : Store)
    (hload : (∃ e, env.loadJob job.JobID = .error e)
      ∨ (∃ e, env.loadUpload job.UploadID = .error e)) :
    (workerHandler env job).calls = []
      ∧ (workerHandler env job).writes
          = [.updateStatus job.EvaluationID .processing,
             .updateStatus job.EvaluationID .failed]
      ∧ (workerHandler env job).crashed = false
      ∧ ∀ r, getEval st job.EvaluationID = some r →
          statusOf (runWorker db env job st) job.EvaluationID = some .failed := by
  have hw : workerHandler env job
      = ⟨[.updateStatus job.EvaluationID .processing,
          .updateStatus job.EvaluationID .failed], [], false⟩ := by
    cases hj : env.loadJob job.JobID with
    | error e => exact workerHandler_job_error env job e hj
    | ok jobMeta =>
      rcases hload with ⟨e, he⟩ | ⟨e, he⟩
      · rw [hj] at he
        cases he
      · exact workerHandler_upload_error env job jobMeta e hj he
  refine ⟨by rw [hw], by rw [hw], by rw [hw], ?_⟩
  intro r hex
  have hid := getEval_id hex
  simp [runWorker, hw, statusOf, applyWrites, getEval_updateStatus, hex, hid]

/-- Witness for C5: upload 999 does not exist. -/
theorem worker_load_failure_fails_without_call_witness :
    (workerHandler exampleEnv missingUploadJob).calls = []
      ∧ statusOf (runWorker stubDb exampleEnv missingUploadJob exampleStore) 42
          = some .failed :=
  have h := worker_load_failure_fails_without_call stubDb exampleEnv missingUploadJob
    exampleStore (Or.inr ⟨.new "record not found", rfl⟩)
  ⟨h.1, h.2.2.2 exampleRow rfl⟩

/-- C6: when the scoring result lacks the nested `cv` object or the nested
`project` object (the key is absent or its value is not a JSON object), the
worker handler writes processing and then failed and issues no write of the
result columns: the row ends as it was with only the status changed to
failed, and no other row changes. -/
theorem worker_bad_shape_changes_status_only (db : Database) (env : WorkerEnv)
    (job : EvaluationJob) (st : Store) (r : Evaluation) (jobMeta : Job) (upload : Upload)
    (result : JObj)
    (hex : getEval st job.EvaluationID = some r)
    (hj : env.loadJob job.JobID = .ok jobMeta)
    (hu : env.loadUpload job.UploadID = .ok upload)
    (he : env.evaluate jobMeta.Description jobMeta.Rubric upload.CVText upload.ProjectText
      = .ok result)
    (hmiss : (result.index "cv").asObject = none
      ∨ (result.index "project").asObject = none) :
    (workerHandler env job).writes
        = [.updateStatus job.EvaluationID .processing,
           .updateStatus job.EvaluationID .failed]
      ∧ getEval (runWorker db env job st) job.EvaluationID = some { r with Status := .failed }
      ∧ ∀ id, id ≠ job.EvaluationID →
          getEval (runWorker db env job st) id = getEval st id := by
  have hw := workerHandler_bad_shape env job jobMeta upload result hj hu he hmiss
  have hid := getEval_id hex
  refine ⟨by rw [hw], ?_, ?_⟩
  · simp [runWorker, hw, applyWrites, getEval_updateStatus, hex, hid]
  · intro id hne
    cases hg : getEval st id with
    | none => simp [runWorker, hw, applyWrites, getEval_updateStatus, hg]
    | some r1 =>
      have hid1 := getEval_id hg
      have hne1 : ¬ r1.ID = job.EvaluationID := by rw [hid1]; exact hne
      simp [runWorker, hw, applyWrites, getEval_updateStatus, hg, hne1]

/-- Witness for C6: a result whose `cv` is a string and whose `project` is
absent. -/
theorem worker_bad_shape_changes_status_only_witness :
    getEval (runWorker stubDb badShapeEnv exampleJob exampleStore) 42
      = some { exampleRow with Status := .failed } :=
  (worker_bad_shape_changes_status_only stubDb badShapeEnv exampleJob exampleStore exampleRow
    ⟨2, "Test Job", "Backend evaluation system with AI", "\x7b\x7d"⟩
    ⟨7, "Jane Doe", "jane@example.com", "CV text", "Project text"⟩
    [("cv", .str "n/a")] rfl rfl rfl rfl (Or.inl rfl)).2.1

/-- C7, as the code has it: when the scoring result has both nested objects
and the database accepts the six values of the update, the row ends completed
and holds what the database stores for `cv.match_rate`, `cv.feedback`,
`project.score`, `project.feedback`, `overall_summary` and the serialized
result.  The handler clamps nothing: with a database that stores a number and
a string as they are, a numeric match rate or score and a string feedback or
summary are stored exactly as returned, whatever their value, so the stored
match rate lies in [0,1] and the stored score in [1,10] whenever the returned
ones do.  When the database refuses one of the values, nothing is stored and
the row stays processing. -/
theorem worker_good_shape_stores_accepted_result (db : Database) (env : WorkerEnv)
    (job : EvaluationJob) (st : Store) (r : Evaluation) (jobMeta : Job) (upload : Upload)
    (result cv project : JObj)
    (hex : getEval st job.EvaluationID = some r)
    (hj : env.loadJob job.JobID = .ok jobMeta)
    (hu : env.loadUpload job.UploadID = .ok upload)
    (he : env.evaluate jobMeta.Description jobMeta.Rubric upload.CVText upload.ProjectText
      = .ok result)
    (hcv : result.index "cv" = .obj cv)
    (hpr : result.index "project" = .obj project) :
    (∀ v, db.convert (cv.index "match_rate") (cv.index "feedback") (project.index "score")
          (project.index "feedback") (result.index "overall_summary") (env.marshal result)
          = some v →
        getEval (runWorker db env job st) job.EvaluationID
            = some { r with
                Status := .completed
                CVMatchRate := v.cvMatchRate
                CVFeedback := v.cvFeedback
                ProjectScore := v.projectScore
                ProjectFeedback := v.projectFeedback
                OverallSummary := v.overallSummary
                ResultJSON := some v.resultJSON }
          ∧ db.jsonColumn (env.marshal result) = some v.resultJSON
          ∧ (db.keepsValues →
              (∀ q, cv.index "match_rate" = .num q → v.cvMatchRate = q)
                ∧ (∀ s, cv.index "feedback" = .str s → v.cvFeedback = s)
                ∧ (∀ q, project.index "score" = .num q → v.projectScore = q)
                ∧ (∀ s, project.index "feedback" = .str s → v.projectFeedback = s)
                ∧ (∀ s, result.index "overall_summary" = .str s → v.overallSummary = s)
                ∧ (∀ q, cv.index "match_rate" = .num q → 0 ≤ q → q ≤ 1 →
                    0 ≤ v.cvMatchRate ∧ v.cvMatchRate ≤ 1)
                ∧ (∀ q, project.index "score" = .num q → 1 ≤ q → q ≤ 10 →
                    1 ≤ v.projectScore ∧ v.projectScore ≤ 10)))
      ∧ (db.convert (cv.index "match_rate") (cv.index "feedback") (project.index "score")
          (project.index "feedback") (result.index "overall_summary") (env.marshal result)
          = none →
        getEval (runWorker db env job st) job.EvaluationID
          = some { r with Status := .processing }) := by
  constructor
  · intro v hv
    obtain ⟨h1, h2, h3, h4, h5, h6⟩ := convert_eq_some db _ _ _ _ _ _ v hv
    refine ⟨runWorker_accepted db env job st r jobMeta upload result cv project v
      hex hj hu he hcv hpr hv, h6, ?_⟩
    rintro ⟨hnum, hstr⟩
    have hmr : ∀ q, cv.index "match_rate" = .num q → v.cvMatchRate = q := by
      intro q hq
      rw [hq] at h1
      exact hnum q _ h1
    have hps : ∀ q, project.index "score" = .num q → v.projectScore = q := by
      intro q hq
      rw [hq] at h3
      exact hnum q _ h3
    refine ⟨hmr, ?_, hps, ?_, ?_, ?_, ?_⟩
    · intro s hs
      rw [hs] at h2
      exact hstr s _ h2
    · intro s hs
      rw [hs] at h4
      exact hstr s _ h4
    · intro s hs
      rw [hs] at h5
      exact hstr s _ h5
    · intro q hq h0 h1'
      rw [hmr q hq]
      exact ⟨h0, h1'⟩
    · intro q hq h0 h1'
      rw [hps q hq]
      exact ⟨h0, h1'⟩
  · intro hv
    exact runWorker_refused db env job st r jobMeta upload result cv project
      hex hj hu he hcv hpr hv

/-- Witness for C7: the example scenario of the specification, evaluation 42,
with a database that stores the five values as they are. -/
theorem worker_good_shape_stores_accepted_result_witness :
    getEval (runWorker stubDb exampleEnv exampleJob exampleStore) 42
      = some { ID := 42, UploadID := 7, JobID := 2, Status := .completed,
               CVMatchRate := 0.82, CVFeedback := "Strong backend exp",
               ProjectScore := 8.5, ProjectFeedback := "Good error handling",
               OverallSummary := "Solid candidate",
               ResultJSON := some (exampleEnv.marshal exampleResult) } :=
  ((worker_good_shape_stores_accepted_result stubDb exampleEnv exampleJob exampleStore
    exampleRow
    ⟨2, "Test Job", "Backend evaluation system with AI", "\x7b\x7d"⟩
    ⟨7, "Jane Doe", "jane@example.com", "CV text", "Project text"⟩
    exampleResult
    [("match_rate", .num 0.82), ("feedback", .str "Strong backend exp")]
    [("score", .num 8.5), ("feedback", .str "Good error handling")]
    rfl rfl rfl rfl rfl rfl).1
    ⟨0.82, "Strong backend exp", 8.5, "Good error handling", "Solid candidate",
      exampleEnv.marshal exampleResult⟩ rfl).1

/-- Counterexample to C7 as stated: the scoring result has both nested
sections, but `cv.match_rate` is an object, which the database refuses for a
float column; nothing is persisted and the row is not marked completed: it is
the initial row with status processing. -/
theorem worker_good_shape_not_stored_when_update_refused :
    objectMatchRateResult.index "cv"
        = .obj [("match_rate", JVal.obj [("value", JVal.num 0.82)]),
                ("feedback", JVal.str "Strong backend exp")]
      ∧ objectMatchRateResult.index "project"
        = .obj [("score", JVal.num 8.5), ("feedback", JVal.str "Good error handling")]
      ∧ getEval (runWorker stubDb objectMatchRateEnv exampleJob exampleStore) 42
        = some { exampleRow with Status := .processing } := by
  refine ⟨rfl, rfl, ?_⟩
  rfl

/-! ## Status histories -/

/-- The status seen after a status update. -/
theorem statusOf_updateStatus (db : Database) (st : Store) (i id : Nat) (s : Status) :
    statusOf (applyWrite db st (.updateStatus i s)) id
      = if id = i then (statusOf st id).map (fun _ => s) else statusOf st id := by
  cases hg : getEval st id with
  | none => simp [statusOf, getEval_updateStatus, hg]
  | some r =>
    have hid := getEval_id hg
    by_cases h : id = i
    · subst h
      simp [statusOf, getEval_updateStatus, hg, hid]
    · have h1 : ¬ r.ID = i := by rw [hid]; exact h
      simp [statusOf, getEval_updateStatus, hg, h, h1]

/-- The status seen after a result update: the new status when the database
accepts the update, the old one when it refuses it. -/
theorem statusOf_updates (db : Database) (st : Store) (i id : Nat) (s : Status)
    (a b c d e : JVal) (j : String) :
    statusOf (applyWrite db st (.updates i s a b c d e j)) id
      = if (db.convert a b c d e j).isSome = true ∧ id = i then
          (statusOf st id).map (fun _ => s)
        else statusOf st id := by
  cases hv : db.convert a b c d e j with
  | none => simp [applyWrite_updates_refused db st i s a b c d e j hv]
  | some v =>
    cases hg : getEval st id with
    | none => simp [statusOf, getEval_updates_accepted db st i id s a b c d e j v hv, hg]
    | some r =>
      have hid := getEval_id hg
      by_cases h : id = i
      · subst h
        simp [statusOf, getEval_updates_accepted db st id id s a b c d e j v hv, hg, hid]
      · have h1 : ¬ r.ID = i := by rw [hid]; exact h
        simp [statusOf, getEval_updates_accepted db st i id s a b c d e j v hv, hg, h, h1]

/-- The status seen after an insert. -/
theorem statusOf_create (db : Database) (st : Store) (row : Evaluation) (id : Nat) :
    statusOf (applyWrite db st (.create row)) id
      = match statusOf st id with
        | some s => some s
        | none => if row.ID = id then some row.Status else none := by
  have happ : getEval (applyWrite db st (.create row)) id
      = (getEval st id).or (if row.ID = id then some row else none) := by
    simp only [getEval, applyWrite, List.find?_append]
    congr 1
    by_cases h : row.ID = id
    · have hb : (row.ID == id) = true := by simpa using h
      simp [List.find?, hb, h]
    · have hb : (row.ID == id) = false := by simpa using h
      simp [List.find?, hb, h]
  cases hg : getEval st id with
  | none =>
    by_cases h : row.ID = id <;> simp [statusOf, happ, hg, h]
  | some r => simp [statusOf, happ, hg]

/-- A status may follow itself. -/
theorem forwardStep_refl (a : Option Status) : forwardStep a a = true := by
  cases a with
  | none => rfl
  | some s => cases s <;> rfl

/-- A history that goes on after the writes of one run. -/
theorem forwardFrom_traceWrites_append (db : Database) (id : Nat)
    (rest : List (Option Status)) :
    ∀ (ws : List DBWrite) (st : Store),
      forwardFrom (statusOf st id) (traceWrites db id st ws ++ rest)
        = (forwardFrom (statusOf st id) (traceWrites db id st ws)
            && forwardFrom (statusOf (applyWrites db st ws) id) rest) := by
  intro ws
  induction ws with
  | nil => intro st; simp [traceWrites, forwardFrom, applyWrites]
  | cons w ws ih =>
    intro st
    rw [show traceWrites db id st (w :: ws)
        = statusOf (applyWrite db st w) id :: traceWrites db id (applyWrite db st w) ws from rfl,
      List.cons_append]
    simp only [forwardFrom]
    rw [ih (applyWrite db st w)]
    simp [applyWrites, Bool.and_assoc]

/-- The writes of one run of the worker handler: processing alone (the
client panicked), processing then failed, or processing then the result
update with status completed. -/
theorem workerHandler_writes_cases (env : WorkerEnv) (job : EvaluationJob) :
    (workerHandler env job).writes = [.updateStatus job.EvaluationID .processing]
      ∨ (workerHandler env job).writes
          = [.updateStatus job.EvaluationID .processing,
             .updateStatus job.EvaluationID .failed]
      ∨ ∃ a b c d e j, (workerHandler env job).writes
          = [.updateStatus job.EvaluationID .processing,
             .updates job.EvaluationID .completed a b c d e j] := by
  unfold workerHandler
  split
  · simp
  · split
    · simp
    · split
      · simp
      · simp
      · split <;> simp

/-- The writes of one run of the submission handler: none, the insert of a
queued row, or that insert followed by marking the same row failed. -/
theorem submitHandler_writes_cases (env : SubmitEnv) :
    (submitHandler env).writes = []
      ∨ ∃ row, row.Status = .queued
          ∧ ((submitHandler env).writes = [.create row]
            ∨ (submitHandler env).writes = [.create row, .updateStatus row.ID .failed]) := by
  simp only [submitHandler]
  split
  · simp
  · split
    · simp
    · split
      · simp
      · split
        · simp
        · split
          · exact Or.inr ⟨_, rfl, Or.inr rfl⟩
          · exact Or.inr ⟨_, rfl, Or.inl rfl⟩

/-- Under its guard, the writes of one run move every status forward. -/
theorem forwardFrom_step (db : Database) (id : Nat) (st : Store) (s : Step)
    (hg : stepGuard st s) :
    forwardFrom (statusOf st id) (traceWrites db id st s.writes) = true := by
  cases s with
  | deliver env job =>
    simp only [stepGuard] at hg
    simp only [Step.writes]
    by_cases hid : id = job.EvaluationID
    · subst hid
      cases hs : statusOf st job.EvaluationID with
      | none =>
        rcases workerHandler_writes_cases env job with h | h | ⟨a, b, c, d, e, j, h⟩ <;>
          simp [h, traceWrites, forwardFrom, forwardStep, statusOf_updateStatus,
            statusOf_updates, hs]
      | some s0 =>
        have hnt := hg s0 hs
        rcases workerHandler_writes_cases env job with h | h | ⟨a, b, c, d, e, j, h⟩
        · cases s0 <;>
            simp_all [traceWrites, forwardFrom, forwardStep, statusOf_updateStatus,
              Status.terminal, Status.rank]
        · cases s0 <;>
            simp_all [traceWrites, forwardFrom, forwardStep, statusOf_updateStatus,
              Status.terminal, Status.rank]
        · cases hconv : db.convert a b c d e j <;> cases s0 <;>
            simp_all [traceWrites, forwardFrom, forwardStep, statusOf_updateStatus,
              statusOf_updates, Status.terminal, Status.rank]
    · rcases workerHandler_writes_cases env job with h | h | ⟨a, b, c, d, e, j, h⟩ <;>
        simp [h, traceWrites, forwardFrom, statusOf_updateStatus, statusOf_updates, hid,
          forwardStep_refl]
  | submit env =>
    simp only [stepGuard] at hg
    simp only [Step.writes]
    rcases submitHandler_writes_cases env with h | ⟨row, hq, h | h⟩
    · simp [h, traceWrites, forwardFrom]
    · have hfresh := hg row (by simp [h])
      by_cases hid : row.ID = id
      · subst hid
        have hs : statusOf st row.ID = none := by simp [statusOf, hfresh]
        simp [h, traceWrites, forwardFrom, forwardStep, statusOf_create, hs]
      · cases hs : statusOf st id <;>
          simp [h, traceWrites, forwardFrom, statusOf_create, hs, hid, forwardStep_refl]
    · have hfresh := hg row (by simp [h])
      by_cases hid : row.ID = id
      · subst hid
        have hs : statusOf st row.ID = none := by simp [statusOf, hfresh]
        simp [h, traceWrites, forwardFrom, forwardStep, statusOf_create, statusOf_updateStatus,
          hs, hq, Status.terminal, Status.rank]
      · have hid2 : ¬ id = row.ID := fun hc => hid hc.symm
        cases hs : statusOf st id <;>
          simp [h, traceWrites, forwardFrom, statusOf_create, statusOf_updateStatus, hs, hid,
            hid2, forwardStep_refl]

/-- C8, as the code has it: along every sequence of handler runs in which no
descriptor is delivered to the worker for a row that is already completed or
failed and every submission inserts its row under a fresh id, the status of
every row moves forward only, write by write: a row that exists keeps
existing, a completed or failed status is never changed, and the status never
moves backwards along queued, processing, terminal. -/
theorem status_forward_only_when_guarded (db : Database) (id : Nat) :
    ∀ (steps : List Step) (st : Store), Guarded db st steps →
      forwardFrom (statusOf st id) (traceSteps db id st steps) = true := by
  intro steps
  induction steps with
  | nil => intro st _; rfl
  | cons s rest ih =>
    intro st hg
    obtain ⟨hs, hrest⟩ := hg
    simp only [traceSteps]
    rw [forwardFrom_traceWrites_append, forwardFrom_step db id st s hs, ih _ hrest]
    rfl

/-- Counterexample to C8 as stated: the worker handler writes processing
whatever the current status.  A descriptor for evaluation 42 delivered twice
takes the row from completed back to processing; a descriptor delivered after
the submission handler marked the row failed takes it from failed to
processing. -/
theorem status_moves_back_on_redelivery :
    traceSteps stubDb 42 exampleStore
        [.deliver exampleEnv exampleJob, .deliver exampleEnv exampleJob]
        = [some .processing, some .completed, some .processing, some .completed]
      ∧ forwardFrom (statusOf exampleStore 42)
          (traceSteps stubDb 42 exampleStore
            [.deliver exampleEnv exampleJob, .deliver exampleEnv exampleJob]) = false
      ∧ traceSteps stubDb 42 [] [.submit submitPublishFails, .deliver exampleEnv exampleJob]
        = [some .queued, some .failed, some .processing, some .completed]
      ∧ forwardFrom (statusOf [] 42)
          (traceSteps stubDb 42 [] [.submit submitPublishFails, .deliver exampleEnv exampleJob])
          = false := by
  refine ⟨by rfl, by rfl, by rfl, by rfl⟩

/-- Witness for C8: a submission that creates row 42 followed by one delivery
of its descriptor. -/
theorem status_forward_only_when_guarded_witness :
    traceSteps stubDb 42 [] [.submit { submitPublishFails with publish := fun _ => none },
        .deliver exampleEnv exampleJob]
        = [some .queued, some .processing, some .completed]
      ∧ forwardFrom (statusOf [] 42)
          (traceSteps stubDb 42 [] [.submit { submitPublishFails with publish := fun _ => none },
            .deliver exampleEnv exampleJob]) = true :=
  ⟨by rfl,
   status_forward_only_when_guarded stubDb 42 _ []
     ⟨by
        intro row hrow
        rfl,
      by
        intro s hs
        have h : s = .queued := by
          have h1 : statusOf (applyWrites stubDb []
              (Step.submit { submitPublishFails with publish := fun _ => none }).writes) 42
              = some .queued := by rfl
          rw [show exampleJob.EvaluationID = 42 from rfl] at hs
          rw [h1] at hs
          exact (Option.some.inj hs).symm
        subst h
        rfl,
      trivial⟩⟩


/-! ## PDF extraction -/

/-- Pages without text leave the flag `extractedAnyText` unset. -/
theorem pageLoop_no_text :
    ∀ (ps : List PageOutcome) (i : Nat), ps.all (fun p => !p.hasText) = true →
      (pageLoop ps i).2 = false := by
  intro ps
  induction ps with
  | nil => intro i _; rfl
  | cons p ps ih =>
    intro i h
    simp only [List.all_cons, Bool.and_eq_true] at h
    obtain ⟨hp, hps⟩ := h
    cases p with
    | text pageText =>
      have hempty : pageText = "" := by simpa [PageOutcome.hasText] using hp
      simp [pageLoop, hempty, ih (i + 1) hps]
    | getPageError e => simp [pageLoop, ih (i + 1) hps]
    | extractorError e => simp [pageLoop, ih (i + 1) hps]
    | extractTextError e => simp [pageLoop, ih (i + 1) hps]

/-- When the native extraction yields no text, `extractTextFromPDF` returns
an error. -/
theorem extractTextFromPDF_no_text (readPdf : List UInt8 → PdfDocument) (data : List UInt8)
    (h : (readPdf data).yieldsNoText = true) :
    ∃ e, extractTextFromPDF readPdf data = .err e := by
  unfold extractTextFromPDF
  cases hd : readPdf data with
  | readError e => exact ⟨_, rfl⟩
  | pageCountError e => exact ⟨_, rfl⟩
  | pages ps =>
    rw [hd] at h
    by_cases hlen : ps.length = 0
    · refine ⟨.new "PDF has no pages", ?_⟩
      simp [hlen]
    · have hflag := pageLoop_no_text ps 1 (by simpa [PdfDocument.yieldsNoText] using h)
      refine ⟨.new "no text could be extracted from any page of the PDF", ?_⟩
      simp [hlen, hflag]

/-- The model loop returns the trimmed text of the first model whose call
yields a non-empty text, when every model before it fails or yields the empty
text; it tries exactly the models up to that one. -/
theorem pdfLoop_first_text (env : Remote) (jsonData : String) (t : String) (m : String)
    (post : List String) :
    ∀ (pre : List String) (lastError : Option GoError),
      (∀ x ∈ pre, (∃ e, pdfCall env jsonData x = .err e) ∨ pdfCall env jsonData x = .ok "") →
      pdfCall env jsonData m = .ok t → t ≠ "" →
      pdfLoop env jsonData (pre ++ m :: post) lastError = ⟨.ok (TrimSpace t), pre ++ [m]⟩ := by
  intro pre
  induction pre with
  | nil =>
    intro lastError _ hm ht
    simp [pdfLoop, hm, ht]
  | cons x xs ih =>
    intro lastError hpre hm ht
    have hxs : ∀ y ∈ xs,
        (∃ e, pdfCall env jsonData y = .err e) ∨ pdfCall env jsonData y = .ok "" :=
      fun y hy => hpre y (List.mem_cons_of_mem x hy)
    rcases hpre x (List.mem_cons_self x xs) with ⟨e, he⟩ | he
    · simp [pdfLoop, he, ih (some e) hxs hm ht]
    · simp [pdfLoop, he, ih lastError hxs hm ht]

/-- C9, as the code has it: for a PDF whose native extraction yields no text,
when every model before `m` in the candidate list fails or yields the empty
text and the call for `m` yields the non-empty text `t`, the extraction tries
exactly the models up to `m` and returns `t` with leading and trailing white
space trimmed; when nothing is left after trimming, it returns the raw bytes,
cut to 5000 bytes. -/
theorem pdf_extraction_returns_trimmed_fallback_text (readPdf : List UInt8 → PdfDocument)
    (env : Remote) (data : List UInt8) (jsonData : String) (pre : List String) (m : String)
    (post : List String) (t : String)
    (hnative : (readPdf data).yieldsNoText = true)
    (hmarshal : env.marshalPdf data = .ok jsonData)
    (hsplit : pdfModels = pre ++ m :: post)
    (hpre : ∀ x ∈ pre,
      (∃ e, pdfCall env jsonData x = .err e) ∨ pdfCall env jsonData x = .ok "")
    (hm : pdfCall env jsonData m = .ok t) (ht : t ≠ "") :
    (extractPdf readPdf env data).calls = pre ++ [m]
      ∧ (∀ x ∈ post, x ∉ (extractPdf readPdf env data).calls)
      ∧ (TrimSpace t ≠ "" →
          (extractPdf readPdf env data).result = .ok (utf8 (TrimSpace t)))
      ∧ (TrimSpace t = "" →
          (extractPdf readPdf env data).result
            = .ok (if data.length > 5000 then data.take 5000 else data)) := by
  obtain ⟨e, hnat⟩ := extractTextFromPDF_no_text readPdf data hnative
  have hrun : extractTextFromPDFWithGemini env data = ⟨.ok (TrimSpace t), pre ++ [m]⟩ := by
    unfold extractTextFromPDFWithGemini
    rw [hmarshal, hsplit]
    exact pdfLoop_first_text env jsonData t m post pre none hpre hm ht
  have hnodup : (pre ++ m :: post).Nodup := by
    rw [← hsplit]
    decide
  have hpost : ∀ x ∈ post, x ∉ pre ++ [m] := by
    intro x hx hmem
    rw [List.nodup_append] at hnodup
    obtain ⟨_, hmp, hdisj⟩ := hnodup
    rcases List.mem_append.mp hmem with h | h
    · exact hdisj h (List.mem_cons_of_mem m hx)
    · have hxm : x = m := by simpa using h
      subst hxm
      exact (List.nodup_cons.mp hmp).1 hx
  by_cases htrim : TrimSpace t = ""
  · have hres : extractPdf readPdf env data
        = ⟨.ok (if data.length > 5000 then data.take 5000 else data), pre ++ [m]⟩ := by
      simp only [extractPdf, extractTextFromPDFWithFallback, hnat, hrun, htrim, ne_eq,
        not_true_eq_false, if_false]
      split <;> rfl
    rw [hres]
    exact ⟨rfl, hpost, fun h => absurd htrim h, fun _ => rfl⟩
  · have hres : extractPdf readPdf env data = ⟨.ok (utf8 (TrimSpace t)), pre ++ [m]⟩ := by
      simp [extractPdf, extractTextFromPDFWithFallback, hnat, hrun, htrim]
    rw [hres]
    exact ⟨rfl, hpost, fun _ => rfl, fun h => absurd h htrim⟩

/-- The first remote call against `stubText t` yields the text `t`. -/
theorem pdfCall_stubText (t model : String) : pdfCall (stubText t) "request" model = .ok t := by
  simp [pdfCall, stubText, unmarshalMap, textResponse, extractTextFromResponse, JObj.index,
    JVal.asArray, JVal.asObject, JVal.asString]

/-- Counterexample to C9 as stated: the PDF yields no native text and the
first model succeeds with the non-empty text " x", but the extraction returns
"x", which is not that text; and when the first model succeeds with a text of
two blanks, the extraction returns the raw bytes of the file. -/
theorem pdf_extraction_trims_fallback_text :
    (stubScannedPdf pdfMagic).yieldsNoText = true
      ∧ pdfCall (stubText " x") "request" "gemini-2.0-flash-001" = .ok " x"
      ∧ (extractPdf stubScannedPdf (stubText " x") pdfMagic).result = .ok (utf8 "x")
      ∧ utf8 "x" ≠ utf8 " x"
      ∧ pdfCall (stubText "  ") "request" "gemini-2.0-flash-001" = .ok "  "
      ∧ (extractPdf stubScannedPdf (stubText "  ") pdfMagic).result = .ok pdfMagic := by
  refine ⟨rfl, pdfCall_stubText _ _, by rfl, by decide, pdfCall_stubText _ _, by rfl⟩

/-- Witness for C9: a remote stub returning "Name: Jane Doe..." makes the
extraction return that text, after one remote call. -/
theorem pdf_extraction_returns_trimmed_fallback_text_witness :
    (extractPdf stubScannedPdf (stubText "Name: Jane Doe...") pdfMagic).calls
        = ["gemini-2.0-flash-001"]
      ∧ (extractPdf stubScannedPdf (stubText "Name: Jane Doe...") pdfMagic).result
        = .ok (utf8 "Name: Jane Doe...") :=
  have h := pdf_extraction_returns_trimmed_fallback_text stubScannedPdf
    (stubText "Name: Jane Doe...") pdfMagic "request" [] "gemini-2.0-flash-001"
    ["gemini-2.0-flash", "gemini-2.5-flash", "gemini-flash-latest"] "Name: Jane Doe..."
    rfl rfl rfl (by simp) (pdfCall_stubText _ _) (by decide)
  ⟨h.1, h.2.2.1 (by decide)⟩

/-- When neither callee panics, `extractTextFromPDFWithFallback` returns a
text with a nil error, whatever the bytes and whatever the two callees return.
When both fail (an error or the empty text) the text is the raw bytes, cut to
the first 5000 when there are more: a prefix of the input of length
min(len, 5000), the whole input when it has at most 5000 bytes. -/
theorem pdf_fallback_never_errors (native : List UInt8 → Outcome String)
    (remote : List UInt8 → PdfRun) (data : List UInt8)
    (hn : (native data).returned = true) (hr : (remote data).result.returned = true) :
    (∃ bytes, (extractTextFromPDFWithFallback native remote data).result = .ok bytes)
      ∧ (((∃ e, native data = .err e) ∨ native data = .ok "") →
          ((∃ e, (remote data).result = .err e) ∨ (remote data).result = .ok "") →
          (extractTextFromPDFWithFallback native remote data).result = .ok (data.take 5000)
            ∧ data.take 5000 <+: data
            ∧ (data.take 5000).length = min data.length 5000
            ∧ (data.length ≤ 5000 → data.take 5000 = data)) := by
  have hraw : (if data.length > 5000 then (⟨.ok (data.take 5000), []⟩ : FallbackRun)
      else ⟨.ok data, []⟩).result = .ok (data.take 5000) := by
    split
    · rfl
    · rename_i h
      simp [List.take_of_length_le (Nat.le_of_not_gt h)]
  constructor
  · unfold extractTextFromPDFWithFallback
    cases hnat : native data with
    | panic msg => simp [hnat, Outcome.returned] at hn
    | ok text =>
      by_cases ht : text = ""
      · cases hrem : (remote data).result with
        | panic msg => simp [hrem, Outcome.returned] at hr
        | ok g =>
          by_cases hgt : g = ""
          · simp [ht, hrem, hgt, hraw]
          · simp [ht, hrem, hgt]
        | err e => simp [ht, hrem, hraw]
      · simp [ht]
    | err e =>
      cases hrem : (remote data).result with
      | panic msg => simp [hrem, Outcome.returned] at hr
      | ok g =>
        by_cases hgt : g = ""
        · simp [hrem, hgt, hraw]
        · simp [hrem, hgt]
      | err e => simp [hrem, hraw]
  · intro hnf hrf
    refine ⟨?_, List.take_prefix _ _, by simp [Nat.min_comm], fun h => List.take_of_length_le h⟩
    unfold extractTextFromPDFWithFallback
    rcases hnf with ⟨e, hnat⟩ | hnat <;> rcases hrf with ⟨e1, hrem⟩ | hrem <;>
      simp [hnat, hrem, hraw]

/-- Example: native extraction and the remote fallback both fail on a
four-byte input, which comes back whole. -/
theorem pdf_fallback_never_errors_witness :
    (extractTextFromPDFWithFallback (fun _ => .err (.new "failed to read PDF"))
        (fun _ => ⟨.err (.new "all Gemini models failed"), pdfModels⟩) pdfMagic).result
      = .ok pdfMagic :=
  ((pdf_fallback_never_errors (fun _ => .err (.new "failed to read PDF"))
      (fun _ => ⟨.err (.new "all Gemini models failed"), pdfModels⟩) pdfMagic rfl rfl).2
    (Or.inl ⟨_, rfl⟩) (Or.inl ⟨_, rfl⟩)).1


/-! ## Reading the candidate text -/

/-- The reader returns the text `t` exactly when the first candidate is an
object whose `content` is an object whose `parts` is a list whose first
element is an object with a string field `text` equal to `t`. -/
theorem extractTextFromResponse_ok_iff (apiResponse : JObj) (t : String) :
    extractTextFromResponse apiResponse = .ok t ↔
      ∃ (candidate : JObj) (rest : List JVal) (content part : JObj) (prest : List JVal),
        apiResponse.index "candidates" = .arr (.obj candidate :: rest)
          ∧ candidate.index "content" = .obj content
          ∧ content.index "parts" = .arr (.obj part :: prest)
          ∧ part.index "text" = .str t := by
  constructor
  · intro h
    unfold extractTextFromResponse at h
    cases hc : apiResponse.index "candidates" <;> simp [hc, JVal.asArray] at h
    rename_i items
    cases items with
    | nil => simp at h
    | cons c0 rest =>
      cases c0 <;> simp [JVal.asObject] at h
      rename_i candidate
      cases hcont : JObj.index candidate "content" <;> simp [hcont] at h
      rename_i content
      cases hparts : JObj.index content "parts" <;> simp [hparts] at h
      rename_i pitems
      cases pitems with
      | nil => simp at h
      | cons p0 prest =>
        cases p0 <;> simp at h
        rename_i part
        cases htext : JObj.index part "text" <;> simp [htext, JVal.asString] at h
        rename_i s
        subst h
        exact ⟨candidate, rest, content, part, prest, rfl, hcont, hparts, htext⟩
  · rintro ⟨candidate, rest, content, part, prest, hc, hcont, hparts, htext⟩
    simp [extractTextFromResponse, hc, hcont, hparts, htext, JVal.asArray, JVal.asObject,
      JVal.asString]

/-- The reader panics exactly when the candidate list has a first element
that is not an object, or the first candidate's parts list has a first
element that is not an object. -/
theorem extractTextFromResponse_panic_iff (apiResponse : JObj) :
    (extractTextFromResponse apiResponse).returned = false ↔
      (∃ c0 rest, apiResponse.index "candidates" = .arr (c0 :: rest) ∧ c0.asObject = none)
        ∨ ∃ (candidate : JObj) (rest : List JVal) (content : JObj) (p0 : JVal)
            (prest : List JVal),
            apiResponse.index "candidates" = .arr (.obj candidate :: rest)
              ∧ candidate.index "content" = .obj content
              ∧ content.index "parts" = .arr (p0 :: prest)
              ∧ p0.asObject = none := by
  unfold extractTextFromResponse
  cases hc : apiResponse.index "candidates" <;>
    simp [JVal.asArray, Outcome.returned]
  rename_i items
  cases items with
  | nil => simp [Outcome.returned]
  | cons c0 rest =>
    cases c0 <;> simp [JVal.asObject, Outcome.returned]
    rename_i candidate
    cases hcont : JObj.index candidate "content" <;> simp [Outcome.returned]
    rename_i content
    cases hparts : JObj.index content "parts" <;> simp [Outcome.returned]
    rename_i pitems
    cases pitems with
    | nil => simp [Outcome.returned]
    | cons p0 prest =>
      cases p0 <;> simp [Outcome.returned]
      rename_i part
      cases htext : JObj.index part "text" <;> simp [JVal.asString, Outcome.returned]

/-- C13, the defect: `extractTextFromResponse` does not return an error on
every shape mismatch.  For the response `{"candidates":[1]}`, and for a
response whose parts list is `["x"]`, the unchecked type assertion panics: the
call returns neither a text nor an error. -/
theorem extractTextFromResponse_panics_on_non_object :
    extractTextFromResponse numberCandidateResponse
        = .panic "interface conversion: interface is not map[string]interface"
      ∧ (extractTextFromResponse numberCandidateResponse).returned = false
      ∧ extractTextFromResponse stringPartResponse
        = .panic "interface conversion: interface is not map[string]interface"
      ∧ (extractTextFromResponse stringPartResponse).returned = false := by
  refine ⟨rfl, rfl, rfl, rfl⟩

/-! ## One run of the submission handler -/

/-- C14: for a request `(uploadId, jobId)` whose upload and job both load,
the submission handler inserts an evaluation row with status queued and hands
`PublishJob` one descriptor that carries the id of that row, the upload id and
the job id of the request, and empty texts.  When publishing fails it marks
the row failed and answers 500; when publishing succeeds it answers 200 with
the row id and status queued and issues no write besides the insert. -/
theorem submit_publishes_or_marks_failed (db : Database) (env : SubmitEnv) (st : Store)
    (reqUploadID reqJobID evalID : Nat) (upload : Upload) (job : Job)
    (hbind : env.bind = .ok (reqUploadID, reqJobID))
    (hu : env.loadUpload reqUploadID = .ok upload)
    (hj : env.loadJob reqJobID = .ok job)
    (hcreate : env.create (newEvaluation upload.ID job.ID) = .ok evalID) :
    (submitHandler env).published = [⟨evalID, reqUploadID, reqJobID, "", ""⟩]
      ∧ (∃ rest, (submitHandler env).writes
          = .create { newEvaluation upload.ID job.ID with ID := evalID } :: rest)
      ∧ ({ newEvaluation upload.ID job.ID with ID := evalID } : Evaluation).Status = .queued
      ∧ ((∃ e, env.publish ⟨evalID, reqUploadID, reqJobID, "", ""⟩ = some e) →
          (submitHandler env).writes
              = [.create { newEvaluation upload.ID job.ID with ID := evalID },
                 .updateStatus evalID .failed]
            ∧ (submitHandler env).response
              = (500, [("error", .str "failed to queue job")])
            ∧ statusOf (applyWrites db st (submitHandler env).writes) evalID = some .failed)
      ∧ (env.publish ⟨evalID, reqUploadID, reqJobID, "", ""⟩ = none →
          (submitHandler env).writes
              = [.create { newEvaluation upload.ID job.ID with ID := evalID }]
            ∧ (submitHandler env).response
              = (200, [("id", .num evalID), ("status", .str "queued")])
            ∧ (getEval st evalID = none →
                statusOf (applyWrites db st (submitHandler env).writes) evalID
                  = some .queued)) := by
  have hcreate1 : env.create
      { ID := 0, UploadID := upload.ID, JobID := job.ID, Status := .queued,
        CVMatchRate := 0, CVFeedback := "", ProjectScore := 0,
        ProjectFeedback := "", OverallSummary := "", ResultJSON := none }
      = .ok evalID := hcreate
  cases hp : env.publish ⟨evalID, reqUploadID, reqJobID, "", ""⟩ with
  | some e =>
    have hrun : submitHandler env
        = ⟨[.create { newEvaluation upload.ID job.ID with ID := evalID },
            .updateStatus evalID .failed],
           [⟨evalID, reqUploadID, reqJobID, "", ""⟩],
           (500, [("error", .str "failed to queue job")])⟩ := by
      simp [submitHandler, hbind, hu, hj, hcreate1, hp, newEvaluation]
    rw [hrun]
    refine ⟨rfl, ⟨_, rfl⟩, rfl, fun _ => ⟨rfl, rfl, ?_⟩, fun h => by cases h⟩
    simp only [applyWrites, List.foldl_cons, List.foldl_nil, statusOf_updateStatus,
      statusOf_create, if_true]
    cases statusOf st evalID <;> simp [newEvaluation]
  | none =>
    have hrun : submitHandler env
        = ⟨[.create { newEvaluation upload.ID job.ID with ID := evalID }],
           [⟨evalID, reqUploadID, reqJobID, "", ""⟩],
           (200, [("id", .num evalID), ("status", .str "queued")])⟩ := by
      simp [submitHandler, hbind, hu, hj, hcreate1, hp, newEvaluation]
    rw [hrun]
    refine ⟨rfl, ⟨_, rfl⟩, rfl, fun h => ?_, fun _ => ⟨rfl, rfl, ?_⟩⟩
    · obtain ⟨e, he⟩ := h
      cases he
    · intro hfresh
      have hs : statusOf st evalID = none := by simp [statusOf, hfresh]
      simp [applyWrites, statusOf_create, hs, newEvaluation]

/-- Witness for C14: a submission for upload 7 and job 2 whose publish fails
leaves row 42 failed after one published descriptor. -/
theorem submit_publishes_or_marks_failed_witness :
    (submitHandler submitPublishFails).published = [⟨42, 7, 2, "", ""⟩]
      ∧ statusOf (applyWrites stubDb [] (submitHandler submitPublishFails).writes) 42
          = some .failed :=
  have h := submit_publishes_or_marks_failed stubDb submitPublishFails [] 7 2 42
    ⟨7, "Jane Doe", "jane@example.com", "CV text", "Project text"⟩
    ⟨2, "Test Job", "Backend evaluation system with AI", "\x7b\x7d"⟩ rfl rfl rfl rfl
  ⟨h.1, (h.2.2.2.1 ⟨.new "context deadline exceeded", rfl⟩).2.2⟩


/-- C10, the defect: `extractTextFromPDFWithFallback` does not return for
every outcome of its callees.  For a PDF without native text whose first
remote model answers `{"candidates":[1]}`, the remote fallback panics in
`extractTextFromResponse` and the panic goes through the fallback chain, which
returns neither the raw bytes nor an error. -/
theorem pdf_fallback_panics_on_malformed_response :
    extractTextFromPDF stubScannedPdf pdfMagic
        = .err (.new "no text could be extracted from any page of the PDF")
      ∧ (extractTextFromPDFWithGemini stubNumberCandidate pdfMagic).result
        = .panic "interface conversion: interface is not map[string]interface"
      ∧ (extractTextFromPDFWithFallback (extractTextFromPDF stubScannedPdf)
          (extractTextFromPDFWithGemini stubNumberCandidate) pdfMagic).result
        = .panic "interface conversion: interface is not map[string]interface"
      ∧ (extractTextFromPDFWithFallback (extractTextFromPDF stubScannedPdf)
          (extractTextFromPDFWithGemini stubNumberCandidate) pdfMagic).result.returned
        = false := by
  refine ⟨rfl, rfl, rfl, rfl⟩

/-- The same malformed response reaches the worker through the scoring
client: `Evaluate` panics, the run is cut short after its first write, and the
row stays processing. -/
theorem worker_run_cut_short_by_client_panic :
    (Evaluate (callGeminiWithModel stubNumberCandidate) "d" "r" "c" "p").result
        = .panic "interface conversion: interface is not map[string]interface"
      ∧ (workerHandler panickingClientEnv exampleJob).crashed = true
      ∧ (workerHandler panickingClientEnv exampleJob).writes
        = [.updateStatus 42 .processing]
      ∧ statusOf (runWorker stubDb panickingClientEnv exampleJob exampleStore) 42
        = some .processing := by
  refine ⟨rfl, rfl, rfl, rfl⟩

/-! ## The type hint of a file name -/

/-- An element of a list splits the list at its first occurrence, which is
where `indexOf` points. -/
theorem indexOf_split {α : Type} [DecidableEq α] (b : α) :
    ∀ l : List α, b ∈ l → ∃ p q, l = p ++ b :: q ∧ b ∉ p ∧ l.indexOf b = p.length := by
  intro l
  induction l with
  | nil => intro h; simp at h
  | cons x xs ih =>
    intro h
    by_cases hx : x = b
    · subst hx
      exact ⟨[], xs, rfl, by simp, by simp⟩
    · have hmem : b ∈ xs := by
        rcases List.mem_cons.mp h with h1 | h1
        · exact absurd h1.symm hx
        · exact h1
      obtain ⟨p, q, hsplit, hp, hidx⟩ := ih hmem
      refine ⟨x :: p, q, by simp [hsplit], ?_, ?_⟩
      · simp only [List.mem_cons, not_or]
        exact ⟨fun hc => hx hc.symm, hp⟩
      · rw [List.indexOf_cons_ne _ hx, hidx]
        rfl

/-- Slicing a file name after its last occurrence of a byte never goes out
of range: it yields what follows the last occurrence, or the whole name when
the byte does not occur. -/
theorem sliceFrom_lastIndexByte (s : List UInt8) (b : UInt8) :
    ∃ ext, sliceFrom s (lastIndexByte s b + 1) = some ext ∧ b ∉ ext
      ∧ ((b ∉ s ∧ ext = s) ∨ ∃ pre, s = pre ++ b :: ext) := by
  by_cases hmem : b ∈ s
  · obtain ⟨p, q, hsplit, hp, hidx⟩ := indexOf_split b s.reverse (List.mem_reverse.mpr hmem)
    have hs : s = q.reverse ++ b :: p.reverse := by
      have := congrArg List.reverse hsplit
      simpa using this
    have hlen : s.length = q.length + 1 + p.length := by
      rw [hs]
      simp
      omega
    have hlast : lastIndexByte s b = (q.length : Int) := by
      unfold lastIndexByte
      simp only [hidx]
      rw [if_pos (by omega)]
      have hsub : s.length - 1 - p.length = q.length := by omega
      rw [hsub]
    refine ⟨p.reverse, ?_, by simpa using hp, Or.inr ⟨q.reverse, hs⟩⟩
    unfold sliceFrom
    rw [hlast, if_pos ⟨by omega, by omega⟩]
    have htn : ((q.length : Int) + 1).toNat = q.reverse.length + 1 := by
      rw [List.length_reverse]
      omega
    have hdrop : (q.reverse ++ b :: p.reverse).drop (q.reverse.length + 1) = p.reverse := by
      rw [List.drop_append]
      rfl
    rw [htn, hs, hdrop]
  · have hidx : s.reverse.indexOf b = s.length := by
      rw [List.indexOf_of_not_mem (by simpa using hmem)]
      simp
    have hlast : lastIndexByte s b = -1 := by
      unfold lastIndexByte
      simp [hidx]
    refine ⟨s, ?_, hmem, Or.inl ⟨hmem, rfl⟩⟩
    unfold sliceFrom
    rw [hlast]
    simp

/-- C11: for every file content that can be read and every file name, the
type hint is computed without indexing out of range (also for the empty name
and a name ending in '.'): it is the lower-cased part of the name after its
last '.', or the lower-cased whole name when there is no '.'.  When the hint
is txt the file content is returned whole; when it is neither txt nor pdf the
prefix of the content of length min(len, 10000) is returned; in both cases
with a nil error and without a remote call. -/
theorem extractTextFromFile_txt_and_other (toLower : List UInt8 → List UInt8)
    (native : List UInt8 → Outcome String) (remote : List UInt8 → PdfRun)
    (data filename : List UInt8) :
    ∃ ext, sliceFrom filename (lastIndexByte filename dotByte + 1) = some ext
      ∧ dotByte ∉ ext
      ∧ (dotByte ∉ filename → ext = filename)
      ∧ (dotByte ∈ filename → ∃ pre, filename = pre ++ dotByte :: ext)
      ∧ (toLower ext = utf8 "txt" →
          ExtractTextFromFile toLower native remote (.ok data) filename = ⟨.ok data, []⟩)
      ∧ (toLower ext ≠ utf8 "txt" → toLower ext ≠ utf8 "pdf" →
          ExtractTextFromFile toLower native remote (.ok data) filename
              = ⟨.ok (data.take 10000), []⟩
            ∧ data.take 10000 <+: data
            ∧ (data.take 10000).length = min data.length 10000) := by
  obtain ⟨ext, hslice, hnot, hcases⟩ := sliceFrom_lastIndexByte filename dotByte
  refine ⟨ext, hslice, hnot, ?_, ?_, ?_, ?_⟩
  · intro hno
    rcases hcases with ⟨_, h⟩ | ⟨pre, h⟩
    · exact h
    · exact absurd (by rw [h]; simp) hno
  · intro hyes
    rcases hcases with ⟨h, _⟩ | h
    · exact absurd hyes h
    · exact h
  · intro htxt
    simp [ExtractTextFromFile, hslice, htxt]
  · intro htxt hpdf
    refine ⟨?_, List.take_prefix _ _, by simp [Nat.min_comm]⟩
    simp only [ExtractTextFromFile, hslice, htxt, hpdf, if_false]
    split
    · rfl
    · rename_i h
      simp [List.take_of_length_le (Nat.le_of_not_gt h)]

/-- Witness for C11: the file name `notes.TXT` gives the hint txt and the
content back whole; the empty name and the name `archive.` give the empty
hint and the content back (it is shorter than 10000 bytes). -/
theorem extractTextFromFile_txt_and_other_witness :
    ExtractTextFromFile asciiToLower (fun _ => .err (.new "unused"))
        (fun _ => ⟨.err (.new "unused"), []⟩) (.ok pdfMagic) (utf8 "notes.TXT")
        = ⟨.ok pdfMagic, []⟩
      ∧ ExtractTextFromFile asciiToLower (fun _ => .err (.new "unused"))
        (fun _ => ⟨.err (.new "unused"), []⟩) (.ok pdfMagic) []
        = ⟨.ok (pdfMagic.take 10000), []⟩
      ∧ ExtractTextFromFile asciiToLower (fun _ => .err (.new "unused"))
        (fun _ => ⟨.err (.new "unused"), []⟩) (.ok pdfMagic) (utf8 "archive.")
        = ⟨.ok (pdfMagic.take 10000), []⟩ := by
  obtain ⟨e1, h1, -, -, -, ht1, -⟩ := extractTextFromFile_txt_and_other asciiToLower
    (fun _ => .err (.new "unused")) (fun _ => ⟨.err (.new "unused"), []⟩) pdfMagic
    (utf8 "notes.TXT")
  obtain ⟨e2, h2, -, -, -, -, ho2⟩ := extractTextFromFile_txt_and_other asciiToLower
    (fun _ => .err (.new "unused")) (fun _ => ⟨.err (.new "unused"), []⟩) pdfMagic []
  obtain ⟨e3, h3, -, -, -, -, ho3⟩ := extractTextFromFile_txt_and_other asciiToLower
    (fun _ => .err (.new "unused")) (fun _ => ⟨.err (.new "unused"), []⟩) pdfMagic
    (utf8 "archive.")
  have he1 : e1 = utf8 "TXT" := by
    have : sliceFrom (utf8 "notes.TXT") (lastIndexByte (utf8 "notes.TXT") dotByte + 1)
        = some (utf8 "TXT") := by decide
    rw [this] at h1
    exact (Option.some.inj h1).symm
  have he2 : e2 = [] := by
    have : sliceFrom [] (lastIndexByte [] dotByte + 1) = some [] := by decide
    rw [this] at h2
    exact (Option.some.inj h2).symm
  have he3 : e3 = [] := by
    have : sliceFrom (utf8 "archive.") (lastIndexByte (utf8 "archive.") dotByte + 1)
        = some [] := by decide
    rw [this] at h3
    exact (Option.some.inj h3).symm
  subst he1 he2 he3
  exact ⟨ht1 (by decide), (ho2 (by decide) (by decide)).1, (ho3 (by decide) (by decide)).1⟩


/-! ## `cleanJSONResponse` keeps the outermost span -/

/-- Reading a text backwards swaps the two ends of its outermost span. -/
theorem HasSpan.reverse {o c : Char} {l m : List Char} (h : HasSpan o c l m) :
    HasSpan c o l.reverse m.reverse := by
  obtain ⟨a, b, hl, ha, hb⟩ := h
  refine ⟨b.reverse, a.reverse, ?_, by simpa using hb, by simpa using ha⟩
  rw [hl]
  simp

/-- Dropping leading characters that are not the opening character keeps the
span. -/
theorem HasSpan.dropWhile {o c : Char} {l m : List Char} (p : Char → Bool) (hp : p o = false)
    (h : HasSpan o c l m) : HasSpan o c (l.dropWhile p) m := by
  obtain ⟨a, b, hl, ha, hb⟩ := h
  subst hl
  induction a with
  | nil => exact ⟨[], b, by simp [List.dropWhile, hp], by simp, hb⟩
  | cons x xs ih =>
    have hxs : o ∉ xs := fun hc => ha (List.mem_cons_of_mem x hc)
    by_cases hx : p x = true
    · simpa [List.dropWhile, hx] using ih hxs
    · exact ⟨x :: xs, b, by simp [List.dropWhile, hx], ha, hb⟩

/-- Dropping trailing characters that are not the closing character keeps
the span. -/
theorem HasSpan.rdropWhile {o c : Char} {l m : List Char} (p : Char → Bool)
    (hp : p c = false) (h : HasSpan o c l m) :
    HasSpan o c ((l.reverse.dropWhile p).reverse) m := by
  have h1 := (h.reverse.dropWhile p hp).reverse
  simpa using h1

/-- Cutting off a leading text without the opening character keeps the
span. -/
theorem HasSpan.drop_of_prefix {o c : Char} {l m pre : List Char} (ho : o ∉ pre)
    (hpre : pre <+: l) (h : HasSpan o c l m) : HasSpan o c (l.drop pre.length) m := by
  obtain ⟨a, b, hl, ha, hb⟩ := h
  have hao : a ++ [o] <+: l := ⟨m ++ c :: b, by rw [hl]; simp⟩
  have hpa : pre <+: a := by
    rcases List.prefix_or_prefix_of_prefix hpre hao with h1 | h1
    · rcases List.prefix_concat_iff.mp h1 with h2 | h2
      · exact absurd (by rw [h2]; simp) ho
      · exact h2
    · obtain ⟨t, ht⟩ := h1
      exact absurd (by rw [← ht]; simp) ho
  obtain ⟨a1, ha1⟩ := hpa
  refine ⟨a1, b, ?_, fun hc => ha (by rw [← ha1]; exact List.mem_append_right _ hc), hb⟩
  rw [hl, ← ha1, List.append_assoc, List.drop_left]

/-- Cutting off a trailing text without the closing character keeps the
span. -/
theorem HasSpan.take_of_suffix {o c : Char} {l m suf : List Char} (hc : c ∉ suf)
    (hsuf : suf.reverse <+: l.reverse) (h : HasSpan o c l m) :
    HasSpan o c (l.take (l.length - suf.length)) m := by
  have h0 : HasSpan c o (l.reverse.drop suf.reverse.length) m.reverse :=
    HasSpan.drop_of_prefix (by simpa using hc) hsuf h.reverse
  have h1 := h0.reverse
  have h2 : (l.reverse.drop suf.reverse.length).reverse = l.take (l.length - suf.length) := by
    rw [List.drop_reverse]
    simp
  rw [h2] at h1
  simpa using h1

/-- The code point '{' is no white space. -/
theorem isSpace_openBrace : isSpace '{' = false := by decide

/-- The code point '}' is no white space. -/
theorem isSpace_closeBrace : isSpace '}' = false := by decide

/-- Trimming white space keeps the span between braces. -/
theorem hasSpan_TrimSpace {s : String} {m : List Char} (h : HasSpan '{' '}' s.data m) :
    HasSpan '{' '}' (TrimSpace s).data m :=
  (h.dropWhile isSpace isSpace_openBrace).rdropWhile isSpace isSpace_closeBrace

/-- Trimming a leading text without '{' keeps the span between braces. -/
theorem hasSpan_TrimPrefix {s pre : String} {m : List Char} (hpre : '{' ∉ pre.data)
    (h : HasSpan '{' '}' s.data m) : HasSpan '{' '}' (TrimPrefix s pre).data m := by
  unfold TrimPrefix
  split
  · rename_i hp
    exact h.drop_of_prefix hpre (List.isPrefixOf_iff_prefix.mp hp)
  · exact h

/-- Trimming a trailing text without '}' keeps the span between braces. -/
theorem hasSpan_TrimSuffix {s suf : String} {m : List Char} (hsuf : '}' ∉ suf.data)
    (h : HasSpan '{' '}' s.data m) : HasSpan '{' '}' (TrimSuffix s suf).data m := by
  unfold TrimSuffix
  split
  · rename_i hp
    exact h.take_of_suffix hsuf (List.isPrefixOf_iff_prefix.mp hp)
  · exact h


/-- Where `Index` finds the opening brace of the outermost span. -/
theorem Index_of_span (a m b : List Char) (ha : '{' ∉ a) :
    Index ⟨a ++ '{' :: (m ++ '}' :: b)⟩ '{' = (a.length : Int) := by
  unfold Index
  have hidx : (a ++ '{' :: (m ++ '}' :: b)).indexOf '{' = a.length := by
    rw [List.indexOf_append_of_not_mem ha, List.indexOf_cons_self]
    rfl
  simp only [hidx]
  rw [if_pos (by simp)]

/-- Where `LastIndex` finds the closing brace of the outermost span. -/
theorem LastIndex_of_span (a m b : List Char) (hb : '}' ∉ b) :
    LastIndex ⟨a ++ '{' :: (m ++ '}' :: b)⟩ '}' = ((a.length + 1 + m.length : Nat) : Int) := by
  unfold LastIndex
  have hrev : (a ++ '{' :: (m ++ '}' :: b)).reverse
      = b.reverse ++ '}' :: (m.reverse ++ '{' :: a.reverse) := by simp
  have hidx : (a ++ '{' :: (m ++ '}' :: b)).reverse.indexOf '}' = b.length := by
    rw [hrev, List.indexOf_append_of_not_mem (by simpa using hb), List.indexOf_cons_self]
    simp
  have hlen : (a ++ '{' :: (m ++ '}' :: b)).length = a.length + 1 + m.length + 1 + b.length := by
    simp
    omega
  simp only [hidx, hlen]
  rw [if_pos (by omega)]
  congr 1
  omega

/-- The slice between the two braces of the outermost span. -/
theorem slice_of_span (a m b : List Char) :
    slice ⟨a ++ '{' :: (m ++ '}' :: b)⟩ (a.length : Int)
        (((a.length + 1 + m.length : Nat) : Int) + 1)
      = ⟨'{' :: (m ++ ['}'])⟩ := by
  unfold slice
  have h1 : ((a.length : Int)).toNat = a.length := by simp
  have h2 : ((((a.length + 1 + m.length : Nat) : Int) + 1)).toNat - a.length
      = ('{' :: (m ++ ['}'])).length := by
    simp
    omega
  rw [h1, h2]
  congr 1
  rw [List.drop_left]
  have h3 : '{' :: (m ++ '}' :: b) = ('{' :: (m ++ ['}'])) ++ b := by simp
  rw [h3, List.take_left]

/-- Trimming white space leaves a text between braces as it is. -/
theorem TrimSpace_braces (m : List Char) :
    TrimSpace ⟨'{' :: (m ++ ['}'])⟩ = ⟨'{' :: (m ++ ['}'])⟩ := by
  unfold TrimSpace
  congr 1
  have h1 : ('{' :: (m ++ ['}'])).dropWhile isSpace = '{' :: (m ++ ['}']) := by
    simp [List.dropWhile, isSpace_openBrace]
  have h2 : ('{' :: (m ++ ['}'])).reverse = '}' :: (m.reverse ++ ['{']) := by simp
  show ((('{' :: (m ++ ['}'])).dropWhile isSpace).reverse.dropWhile isSpace).reverse = _
  rw [h1, h2]
  simp [List.dropWhile, isSpace_closeBrace]

/-- The last steps of `cleanJSONResponse` on a text with an outermost span. -/
theorem span_extraction (c4 : String) (m : List Char) (h : HasSpan '{' '}' c4.data m) :
    TrimSpace (if Index c4 '{' ≠ -1 ∧ LastIndex c4 '}' ≠ -1 ∧ LastIndex c4 '}' > Index c4 '{'
        then slice c4 (Index c4 '{') (LastIndex c4 '}' + 1) else c4)
      = ⟨'{' :: (m ++ ['}'])⟩ := by
  obtain ⟨a, b, hl, ha, hb⟩ := h
  have hc4 : c4 = ⟨a ++ '{' :: (m ++ '}' :: b)⟩ := String.ext hl
  subst hc4
  rw [Index_of_span a m b ha, LastIndex_of_span a m b hb]
  rw [if_pos ⟨by omega, by omega, by omega⟩, slice_of_span, TrimSpace_braces]

/-- On a text with an outermost span between braces, `cleanJSONResponse`
returns exactly that span. -/
theorem cleanJSONResponse_of_span (content : String) (m : List Char)
    (h : HasSpan '{' '}' content.data m) :
    cleanJSONResponse content = ⟨'{' :: (m ++ ['}'])⟩ := by
  have h1 := hasSpan_TrimSpace h
  have hjson : '{' ∉ ("```json" : String).data := by decide
  have hfence : '{' ∉ ("```" : String).data := by decide
  have hfence2 : '}' ∉ ("```" : String).data := by decide
  have stripFenceStart : ∀ c : String, HasSpan '{' '}' c.data m →
      HasSpan '{' '}'
        (if HasPrefix c "```json" then TrimPrefix c "```json"
          else if HasPrefix c "```" then TrimPrefix c "```" else c).data m := by
    intro c hc
    split
    · exact hasSpan_TrimPrefix hjson hc
    · split
      · exact hasSpan_TrimPrefix hfence hc
      · exact hc
  have stripFenceEnd : ∀ c : String, HasSpan '{' '}' c.data m →
      HasSpan '{' '}' (if HasSuffix c "```" then TrimSuffix c "```" else c).data m := by
    intro c hc
    split
    · exact hasSpan_TrimSuffix hfence2 hc
    · exact hc
  exact span_extraction _ m
    (hasSpan_TrimSpace (stripFenceEnd _ (stripFenceStart _ h1)))

/-- A text whose first '{' comes before its last '}' has an outermost span,
and `Index` and `LastIndex` point at its two braces. -/
theorem span_of_index (s : String) (h1 : Index s '{' ≠ -1)
    (h2 : Index s '{' < LastIndex s '}') :
    ∃ a m b, s = ⟨a ++ '{' :: (m ++ '}' :: b)⟩ ∧ '{' ∉ a ∧ '}' ∉ b
      ∧ Index s '{' = (a.length : Int)
      ∧ LastIndex s '}' = ((a.length + 1 + m.length : Nat) : Int) := by
  have hopen : '{' ∈ s.data := by
    by_contra hno
    apply h1
    unfold Index
    simp [List.indexOf_of_not_mem hno]
  obtain ⟨a, r, hsplit, ha, hidx⟩ := indexOf_split '{' s.data hopen
  have hI : Index s '{' = (a.length : Int) := by
    unfold Index
    simp only [hidx]
    rw [if_pos (by rw [hsplit]; simp)]
  have hclose : '}' ∈ s.data.reverse := by
    by_contra hno
    have hL : LastIndex s '}' = -1 := by
      unfold LastIndex
      simp [List.indexOf_of_not_mem hno]
    rw [hI, hL] at h2
    omega
  obtain ⟨p, q, hrsplit, hp, hridx⟩ := indexOf_split '}' s.data.reverse hclose
  have hs : s.data = q.reverse ++ '}' :: p.reverse := by
    have := congrArg List.reverse hrsplit
    simpa using this
  have hlen : s.data.length = q.length + 1 + p.length := by
    rw [hs]
    simp
    omega
  have hL : LastIndex s '}' = (q.length : Int) := by
    unfold LastIndex
    simp only [hridx]
    rw [if_pos (by omega)]
    have hsub : s.data.length - 1 - p.length = q.length := by omega
    rw [hsub]
  have hlt : a.length < q.length := by
    rw [hI, hL] at h2
    omega
  have hpre1 : a ++ ['{'] <+: s.data := ⟨r, by rw [hsplit]; simp⟩
  have hpre2 : q.reverse <+: s.data := ⟨'}' :: p.reverse, hs.symm⟩
  have hpre : a ++ ['{'] <+: q.reverse :=
    List.prefix_of_prefix_length_le hpre1 hpre2 (by simp; omega)
  obtain ⟨m, hm⟩ := hpre
  have hqlen : q.length = a.length + 1 + m.length := by
    have := congrArg List.length hm
    simp at this
    omega
  refine ⟨a, m, p.reverse, ?_, ha, by simpa using hp, hI, by rw [hL, hqlen]⟩
  apply String.ext
  show s.data = a ++ '{' :: (m ++ '}' :: p.reverse)
  rw [hs, ← hm]
  simp

/-- A text that begins with '{' and ends with '}' is a span between braces. -/
theorem braces_of_head_getLast (s : String) (hhead : s.data.head? = some '{')
    (hlast : s.data.getLast? = some '}') : ∃ m, s = ⟨'{' :: (m ++ ['}'])⟩ := by
  cases hd : s.data with
  | nil => simp [hd] at hhead
  | cons x t =>
    rw [hd] at hhead hlast
    have hx : x = '{' := by simpa using hhead
    subst hx
    rcases List.eq_nil_or_concat t with ht | ⟨m, y, ht⟩
    · subst ht
      simp at hlast
    · rw [List.concat_eq_append] at ht
      subst ht
      have hl2 : ('{' :: (m ++ [y])).getLast? = some y := List.getLast?_concat ('{' :: m)
      rw [hl2] at hlast
      have hy : y = '}' := Option.some.inj hlast
      subst hy
      exact ⟨m, String.ext hd⟩

/-- C12: `cleanJSONResponse` strips the fence and returns the outermost
brace span.  For every text whose first '{' comes before its last '}' the
result is exactly the substring from the first '{' to the last '}'
inclusive, whatever stands before and after it; for every text `s` that
begins with '{' and ends with '}', cleaning `s`, `s` in a json fence and `s`
in a plain fence all give `s`; and cleaning such a result again changes
nothing. -/
theorem cleanJSONResponse_outermost_span :
    (∀ s : String, Index s '{' ≠ -1 → Index s '{' < LastIndex s '}' →
        cleanJSONResponse s = slice s (Index s '{') (LastIndex s '}' + 1)
          ∧ cleanJSONResponse (cleanJSONResponse s) = cleanJSONResponse s)
      ∧ (∀ a m b : List Char, '{' ∉ a → '}' ∉ b →
          cleanJSONResponse ⟨a ++ '{' :: (m ++ '}' :: b)⟩ = ⟨'{' :: (m ++ ['}'])⟩)
      ∧ (∀ s : String, s.data.head? = some '{' → s.data.getLast? = some '}' →
          cleanJSONResponse s = s
            ∧ cleanJSONResponse ("```json\n" ++ s ++ "\n```") = s
            ∧ cleanJSONResponse ("```\n" ++ s ++ "\n```") = s
            ∧ cleanJSONResponse (cleanJSONResponse s) = cleanJSONResponse s) := by
  have hbraces : ∀ m : List Char,
      cleanJSONResponse ⟨'{' :: (m ++ ['}'])⟩ = ⟨'{' :: (m ++ ['}'])⟩ :=
    fun m => cleanJSONResponse_of_span _ m ⟨[], [], rfl, by simp, by simp⟩
  refine ⟨?_, ?_, ?_⟩
  · intro s h1 h2
    obtain ⟨a, m, b, hs, ha, hb, hI, hL⟩ := span_of_index s h1 h2
    have hclean : cleanJSONResponse s = ⟨'{' :: (m ++ ['}'])⟩ :=
      cleanJSONResponse_of_span s m ⟨a, b, by rw [hs], ha, hb⟩
    refine ⟨?_, by rw [hclean, hbraces]⟩
    rw [hclean, hI, hL, hs, slice_of_span]
  · intro a m b ha hb
    exact cleanJSONResponse_of_span _ m ⟨a, b, rfl, ha, hb⟩
  · intro s hhead hlast
    obtain ⟨m, hs⟩ := braces_of_head_getLast s hhead hlast
    subst hs
    refine ⟨hbraces m, ?_, ?_, by rw [hbraces m, hbraces m]⟩
    · exact cleanJSONResponse_of_span _ m
        ⟨("```json\n" : String).data, ("\n```" : String).data, by simp, by decide, by decide⟩
    · exact cleanJSONResponse_of_span _ m
        ⟨("```\n" : String).data, ("\n```" : String).data, by simp, by decide, by decide⟩

/-- Witness for C12: a JSON object with text before and after it, alone, and
in a json fence. -/
theorem cleanJSONResponse_outermost_span_witness :
    cleanJSONResponse "Here it is: \x7b\"a\":\x7b\x7d\x7d. Done" = "\x7b\"a\":\x7b\x7d\x7d"
      ∧ cleanJSONResponse "\x7b\"a\":\x7b\x7d\x7d" = "\x7b\"a\":\x7b\x7d\x7d"
      ∧ cleanJSONResponse ("```json\n" ++ "\x7b\"a\":\x7b\x7d\x7d" ++ "\n```")
          = "\x7b\"a\":\x7b\x7d\x7d" :=
  ⟨cleanJSONResponse_outermost_span.2.1 "Here it is: ".data "\"a\":\x7b\x7d".data
      ". Done".data (by decide) (by decide),
   (cleanJSONResponse_outermost_span.2.2 "\x7b\"a\":\x7b\x7d\x7d" rfl rfl).1,
   (cleanJSONResponse_outermost_span.2.2 "\x7b\"a\":\x7b\x7d\x7d" rfl rfl).2.1⟩


end CvEvaluator
